import Mathlib

/-!
# Shallow embedding of `bevy_dragndrop` (src/lib.rs)

This file embeds the drag-and-drop interaction core of the repository:
the `InputFlags` bitset and its `Mul<u8>` instance, the component types
(`Draggable`, `Dragging`, `AwaitingDrag`, `Receiver`, `DragOffset`), the
event types, the pure helpers `get_inputs` and `is_in_bounds`, and the
four per-frame systems `startdrag`, `awaitdrag`, `dragging` (here
`draggingSys`) and `drop` (here `dropSys`).

Modelling conventions:
* `f32`/`f64` coordinates and times are modelled as `ℚ`.
* Machine `u8` arithmetic in `InputFlags::mul` is `Nat` arithmetic with
  an explicit `% 256`, and `from_bits_truncate` masks with the union of
  all named flags (`0b00111111 = 63`).
* A Bevy `World` is a list of entities (`EntObj`) in iteration order;
  a `Query` is a filter over that list.  Component mutation through a
  `&mut` query item or a deferred `Commands` insert/remove is an update
  of the corresponding field; commands that a system issues are applied
  by the end of that system, before the next system runs.
* A Rust `panic!` (an `unwrap` of `None`/`Err`) is modelled by the
  system returning `none`; a normal frame returns `some` of the new
  world together with the list of events written, in emission order.
-/

/-- Planar vector over ℚ (models Bevy `Vec2`). -/
structure Vec2 where
  x : ℚ
  y : ℚ
deriving DecidableEq, Repr

/-- Spatial vector over ℚ (models Bevy `Vec3`). -/
structure Vec3 where
  x : ℚ
  y : ℚ
  z : ℚ
deriving DecidableEq, Repr

/-- Models `Vec3::truncate`: drop the z component. -/
def Vec3.truncate (v : Vec3) : Vec2 := ⟨v.x, v.y⟩

/-- Componentwise product of two `Vec2`s (models `Vec2 * Vec2`). -/
def Vec2.mulV (a b : Vec2) : Vec2 := ⟨a.x * b.x, a.y * b.y⟩

/-- Axis-aligned rectangle (models Bevy `Rect`). -/
structure Rect where
  min : Vec2
  max : Vec2
deriving DecidableEq, Repr

/-- Models `Rect::from_center_size`: min = center - size/2, max = center + size/2. -/
def Rect.from_center_size (c s : Vec2) : Rect :=
  ⟨⟨c.x - s.x / 2, c.y - s.y / 2⟩, ⟨c.x + s.x / 2, c.y + s.y / 2⟩⟩

/-- Models `Rect::contains`: componentwise `min ≤ p` and `p ≤ max`. -/
def Rect.containsP (r : Rect) (p : Vec2) : Bool :=
  decide (r.min.x ≤ p.x) && decide (p.x ≤ r.max.x) &&
  decide (r.min.y ≤ p.y) && decide (p.y ≤ r.max.y)

/-! ## InputFlags -/

/-- The `InputFlags` type is a `u8` bitset; we carry the raw bits as a `Nat`
(well-formed values stay below 64, the union of all named flags). -/
abbrev InputFlags := Nat

namespace InputFlags

def LeftClick : InputFlags := 0b00000001
def RightClick : InputFlags := 0b00000010
def MiddleClick : InputFlags := 0b00000100
def Shift : InputFlags := 0b00001000
def Ctrl : InputFlags := 0b00010000
def Alt : InputFlags := 0b00100000
def Clicks : InputFlags := 0b00000111
def Modifiers : InputFlags := 0b00111000

/-- Union of all named flags: what `from_bits_truncate` keeps. -/
def ALL : InputFlags := 0b00111111

/-- bitflags `from_bits_truncate`. -/
def from_bits_truncate (bits : Nat) : InputFlags := bits &&& ALL

/-- The `Mul<u8>` impl: `from_bits_truncate(self.bits() * rhs)`, with
`u8` wrap-around made explicit as `% 256`. -/
def mul (a : InputFlags) (rhs : Nat) : InputFlags :=
  from_bits_truncate (a * rhs % 256)

/-- bitflags `contains`: every bit of `b` is present in `a`. -/
def containsF (a b : InputFlags) : Bool := a &&& b == b

/-- bitflags `intersects`: `a` and `b` share at least one bit. -/
def intersects (a b : InputFlags) : Bool := a &&& b != 0

end InputFlags

/-- Raw per-frame device state consumed by `get_inputs`: the pressed
state of the three mouse buttons and the six modifier keys. -/
structure RawInput where
  left : Bool
  right : Bool
  middle : Bool
  shiftL : Bool
  shiftR : Bool
  ctrlL : Bool
  ctrlR : Bool
  altL : Bool
  altR : Bool
deriving DecidableEq, Repr

/-- Models `bool as u8`. -/
def b2n (b : Bool) : Nat := if b then 1 else 0

/-- Models `get_inputs`: builds the frame's input snapshot by boolean
multiplication of each named flag, exactly as in the source. -/
def get_inputs (r : RawInput) : InputFlags :=
  (InputFlags.LeftClick.mul (b2n r.left)) |||
  (InputFlags.RightClick.mul (b2n r.right)) |||
  (InputFlags.MiddleClick.mul (b2n r.middle)) |||
  (InputFlags.Shift.mul (b2n (r.shiftL || r.shiftR))) |||
  (InputFlags.Ctrl.mul (b2n (r.ctrlL || r.ctrlR))) |||
  (InputFlags.Alt.mul (b2n (r.altL || r.altR)))

/-! ## Components and events -/

/-- Entity handles are opaque ids. -/
abbrev EntityId := Nat

/-- The `Draggable` component. -/
structure Draggable where
  required : InputFlags
  disallowed : InputFlags
  minimum_held : Option ℚ
deriving DecidableEq, Repr

/-- The `Dragging` component. -/
structure Dragging where
  hovering : Option EntityId
  reparented : Bool
deriving DecidableEq, Repr

/-- The `AwaitingDrag` component. -/
structure AwaitingDrag where
  ends : ℚ
deriving DecidableEq, Repr

/-- The `DragOffset` component. -/
structure DragOffset where
  x : ℚ
  y : ℚ
deriving DecidableEq, Repr

/-- The `Sprite` component: the handle's asset id is all the core reads. -/
structure Sprite where
  image : Nat
deriving DecidableEq, Repr

/-- A loaded `Image` asset: the core only reads its pixel size. -/
structure Image where
  size : Vec2
deriving DecidableEq, Repr

/-- The `ComputedNode` component: the layout-reported size. -/
structure ComputedNode where
  size : Vec2
deriving DecidableEq, Repr

/-- The `Val` type for UI style fields. -/
inductive Val where
  | Px (v : ℚ)
  | Auto
deriving DecidableEq, Repr

/-- A `UiRect` of four `Val`s. -/
structure UiRect where
  left : Val
  right : Val
  top : Val
  bottom : Val
deriving DecidableEq, Repr

def UiRect.all (v : Val) : UiRect := ⟨v, v, v, v⟩

inductive PositionType where
  | Relative
  | Absolute
deriving DecidableEq, Repr

inductive Display where
  | Flex
  | DefaultDisplay
deriving DecidableEq, Repr

/-- The `Node` style component (the fields the `dragging` system touches). -/
structure Node where
  position_type : PositionType
  left : Val
  top : Val
  right : Val
  bottom : Val
  margin : UiRect
  display : Display
deriving DecidableEq, Repr

inductive Visibility where
  | Visible
  | Hidden
  | Inherited
deriving DecidableEq, Repr

/-- The `GlobalTransform` component, reduced to what the core reads: `translation()`
and `compute_transform().scale`. -/
structure GlobalTransform where
  translation : Vec3
  scale : Vec3
deriving DecidableEq, Repr

/-- The four event types, each carrying the frame's input snapshot. -/
inductive Event where
  | Dropped (dropped : EntityId) (received : Option EntityId) (inputs : InputFlags)
  | Dragged (dragged : EntityId) (inputs : InputFlags)
  | DragAwait (awaiting : EntityId) (inputs : InputFlags)
  | HoveredChange (hovered : EntityId) (receiver : Option EntityId)
      (prevreceiver : Option EntityId) (inputs : InputFlags)
deriving DecidableEq, Repr

/-! ## World -/

/-- One entity with its (optional) components. A component an entity
does not carry is `none` (`receiver` is a marker, hence `Bool`). -/
structure EntObj where
  id : EntityId
  gtransform : Option GlobalTransform
  transform : Option Vec3
  sprite : Option Sprite
  node : Option Node
  computedNode : Option ComputedNode
  draggable : Option Draggable
  dragging : Option Dragging
  awaiting : Option AwaitingDrag
  receiver : Bool
  dragOffset : Option DragOffset
  childOf : Option EntityId
  visibility : Option Visibility
  zindex : Option Int
deriving DecidableEq, Repr

/-- The world is the entity table in query-iteration order. -/
abbrev World := List EntObj

/-- Apply `g` to the entity with id `e` (Bevy entity ids are unique). -/
def updEnt (w : World) (e : EntityId) (g : EntObj → EntObj) : World :=
  w.map fun o => if o.id = e then g o else o

/-- Look an entity up by id. -/
def lookupEnt (w : World) (e : EntityId) : Option EntObj :=
  w.find? fun o => o.id == e

/-- Number of entities currently holding `Dragging`. -/
def countD (w : World) : Nat := w.countP fun o => o.dragging.isSome

/-- Number of entities currently holding `AwaitingDrag`. -/
def countA (w : World) : Nat := w.countP fun o => o.awaiting.isSome

/-- Models `Query<&Dragging>::is_empty` (the startdrag guard query). -/
def draggingEmpty (w : World) : Bool := !(w.any fun o => o.dragging.isSome)

/-- Models `Query<&AwaitingDrag>::is_empty` (the startdrag guard query). -/
def awaitingEmpty (w : World) : Bool := !(w.any fun o => o.awaiting.isSome)

/-- Asset store lookup (`Assets<Image>::get`). -/
def assetsGet (assets : List (Nat × Image)) (i : Nat) : Option Image :=
  (assets.find? fun p => p.1 == i).map Prod.snd

/-- Everything a frame reads from the environment: raw input, the
window's cursor position, the camera projection of that cursor to world
space (`none` models `viewport_to_world` returning `Err`), the loaded
image assets, and `Time::elapsed_secs_f64`. -/
structure FrameInput where
  raw : RawInput
  cursor : Option Vec2
  proj : Option Vec2
  assets : List (Nat × Image)
  time : ℚ
deriving DecidableEq, Repr

/-! ## Hit testing -/

/-- Models `is_in_bounds`.  Returns `none` when the source would panic: a
sprite entity in world-object mode whose image asset is absent
(`assets.get(..).unwrap()`). -/
def is_in_bounds (gtransform : GlobalTransform) (image_handle : Option Sprite)
    (computed_node : Option ComputedNode) (assets : List (Nat × Image))
    (logical_position world_position : Vec2) : Option Bool :=
  match computed_node with
  | some cn =>
      some ((Rect.from_center_size gtransform.translation.truncate cn.size).containsP
        logical_position)
  | none =>
      let scale := gtransform.scale.truncate
      match image_handle with
      | some img =>
          match assetsGet assets img.image with
          | some im =>
              some ((Rect.from_center_size gtransform.translation.truncate
                (scale.mulV im.size)).containsP world_position)
          | none => none
      | none =>
          some ((Rect.from_center_size gtransform.translation.truncate scale).containsP
            world_position)

/-! ## The startdrag system -/

/-- One entry of startdrag's `candidates` vector: entity, its global z
translation, and its `Draggable`. -/
structure Cand where
  ent : EntityId
  z : ℚ
  drg : Draggable
deriving DecidableEq, Repr

/-- The `q_draggable` query of `startdrag`: entities carrying both a
`GlobalTransform` and a `Draggable`, in iteration order. -/
def draggableQuery (w : World) :
    List (GlobalTransform × Option Sprite × EntityId × Option ComputedNode × Draggable) :=
  w.filterMap fun o =>
    match o.gtransform, o.draggable with
    | some gt, some d => some (gt, o.sprite, o.id, o.computedNode, d)
    | _, _ => none

/-- startdrag's candidate-collection loop.  `none` propagates a panic
from `is_in_bounds` (missing image asset). -/
def collectCands (assets : List (Nat × Image)) (inputs : InputFlags) (lp wp : Vec2) :
    List (GlobalTransform × Option Sprite × EntityId × Option ComputedNode × Draggable) →
    Option (List Cand)
  | [] => some []
  | (gt, sp, e, cn, d) :: rest =>
      match is_in_bounds gt sp cn assets lp wp with
      | none => none
      | some hit =>
          match collectCands assets inputs lp wp rest with
          | none => none
          | some tail =>
              if hit && inputs.containsF d.required && !(inputs.intersects d.disallowed) then
                some (⟨e, gt.translation.z, d⟩ :: tail)
              else
                some tail

/-- startdrag's winner fold: replace the best candidate only on a
strictly greater z, so the first-seen candidate wins ties. -/
def pickMax (best : Cand) : List Cand → Cand
  | [] => best
  | c :: rest => pickMax (if c.z > best.z then c else best) rest

/-- The `startdrag` system. -/
def startdrag (w : World) (f : FrameInput) : Option (World × List Event) :=
  let inputs := get_inputs f.raw
  if inputs.intersects InputFlags.Clicks && draggingEmpty w && awaitingEmpty w then
    match f.cursor with
    | none =>
        -- no cursor: the candidate vector stays empty, nothing happens
        some (w, [])
    | some lp =>
        match f.proj with
        | none => none  -- `viewport_to_world(..).unwrap()` panics
        | some wp =>
            match collectCands f.assets inputs lp wp (draggableQuery w) with
            | none => none
            | some [] => some (w, [])
            | some (c :: rest) =>
                let fc := pickMax c rest
                match fc.drg.minimum_held with
                | some x =>
                    some (updEnt w fc.ent (fun o => { o with awaiting := some ⟨f.time + x⟩ }),
                      [Event.DragAwait fc.ent inputs])
                | none =>
                    some (updEnt w fc.ent (fun o => { o with dragging := some ⟨none, false⟩ }),
                      [Event.Dragged fc.ent inputs])
  else
    some (w, [])

/-! ## The awaitdrag system -/

/-- The `q_draggable` query of `awaitdrag`: entities carrying both a
`Draggable` and an `AwaitingDrag`. -/
def awaitQuery (w : World) : List (EntityId × Draggable × AwaitingDrag) :=
  w.filterMap fun o =>
    match o.draggable, o.awaiting with
    | some d, some a => some (o.id, d, a)
    | _, _ => none

/-- awaitdrag's loop body: cancel (and keep scanning) on disqualified
input, otherwise promote when the deadline has strictly passed and stop
at the first qualifying entity either way. -/
def awaitGo (inputs : InputFlags) (now : ℚ) :
    List (EntityId × Draggable × AwaitingDrag) → World → World × List Event
  | [], w => (w, [])
  | (e, d, a) :: rest, w =>
      if inputs.containsF d.required && !(inputs.intersects d.disallowed) then
        if now > a.ends then
          (updEnt w e (fun o => { o with dragging := some ⟨none, false⟩, awaiting := none }),
            [Event.Dragged e inputs])
        else
          (w, [])
      else
        awaitGo inputs now rest (updEnt w e (fun o => { o with awaiting := none }))

/-- The `awaitdrag` system (it touches no window/camera state, so it
never panics). -/
def awaitdrag (w : World) (f : FrameInput) : World × List Event :=
  awaitGo (get_inputs f.raw) f.time (awaitQuery w) w

/-! ## The dragging system -/

/-- The `q_receivers` query (of both `dragging` and `drop`): entities
with the `Receiver` marker and a `GlobalTransform`. -/
def receiverQuery (w : World) :
    List (GlobalTransform × Option Sprite × EntityId × Option ComputedNode) :=
  w.filterMap fun o =>
    match o.gtransform with
    | some gt => if o.receiver then some (gt, o.sprite, o.id, o.computedNode) else none
    | none => none

/-- First receiver in iteration order whose bounds contain the pointer;
`none` propagates a hit-test panic, `some none` means no receiver hit. -/
def findHit (assets : List (Nat × Image)) (lp wp : Vec2) :
    List (GlobalTransform × Option Sprite × EntityId × Option ComputedNode) →
    Option (Option EntityId)
  | [] => some none
  | (gt, sp, e, cn) :: rest =>
      match is_in_bounds gt sp cn assets lp wp with
      | none => none
      | some true => some (some e)
      | some false => findHit assets lp wp rest

/-- One fetched item of the `q_dragging` query of the `dragging`
system: entities with a `Transform` and a `Dragging`. -/
structure DragItem where
  ent : EntityId
  childOf : Option EntityId
  transform : Vec3
  drg : Dragging
  node : Option Node
  offset : Option DragOffset
deriving DecidableEq, Repr

/-- The `q_dragging` query of the `dragging` system. -/
def dragItems (w : World) : List DragItem :=
  w.filterMap fun o =>
    match o.transform, o.dragging with
    | some t, some d => some ⟨o.id, o.childOf, t, d, o.node, o.dragOffset⟩
    | _, _ => none

/-- Style mutation of the detached-layout branch of `dragging`. -/
def setAbsolute (lp : Vec2) (off : DragOffset) (n : Node) : Node :=
  { n with
    position_type := PositionType.Absolute,
    left := Val.Px (lp.x - off.x),
    top := Val.Px (lp.y - off.y),
    right := Val.Auto,
    bottom := Val.Auto,
    margin := UiRect.all (Val.Px 0),
    display := Display.Flex }

/-- The one-time reparent of `dragging`: remove `ChildOf` and set the
`reparented` flag (both writes target the iterated entity). -/
def reparentStep (w : World) (it : DragItem) : World :=
  if !it.drg.reparented && it.childOf.isSome then
    updEnt w it.ent fun o =>
      { o with childOf := none,
               dragging := o.dragging.map fun d => { d with reparented := true } }
  else w

/-- The three positioning branches of `dragging` (`rep1` is the value of
`dragging.reparented` after the reparent block ran). -/
def positionWrite (w : World) (lp wp : Vec2) (it : DragItem) : World :=
  match it.node with
  | some _ =>
      if it.drg.reparented || it.childOf.isSome then
        updEnt w it.ent fun o =>
          { o with node := o.node.map (setAbsolute lp (it.offset.getD ⟨0, 0⟩)),
                   zindex := some 1000 }
      else
        match it.childOf with
        | some p =>
            match (lookupEnt w p).bind (fun o => o.gtransform) with
            | some _ =>
                updEnt w it.ent fun o =>
                  { o with transform := o.transform.map fun t => ⟨wp.x, wp.y, t.z⟩ }
            | none => w
        | none => w
  | none =>
      updEnt w it.ent fun o =>
        { o with transform := o.transform.map fun t => ⟨wp.x, wp.y, t.z⟩ }

/-- The `dragging` system's unconditional set-to-visible of the dragged entity
(a no-op when the entity carries no `Visibility` component). -/
def visibleWrite (w : World) (it : DragItem) : World :=
  updEnt w it.ent fun o =>
    { o with visibility := o.visibility.map fun _ => Visibility.Visible }

/-- The positioning part of one `dragging` iteration: reparenting,
style/transform update, and the unconditional set-to-visible. -/
def positionStep (w : World) (lp wp : Vec2) (it : DragItem) : World :=
  visibleWrite (positionWrite (reparentStep w it) lp wp it) it

/-- One iteration of the `dragging` loop.  The returned `Bool` is true
when the source `return`s out of the whole system (a receiver was hit). -/
def dragIter (w : World) (f : FrameInput) (inputs : InputFlags) (it : DragItem) :
    Option (World × List Event × Bool) :=
  match f.cursor with
  | none => some (w, [], false)
  | some lp =>
      match f.proj with
      | none => none  -- `viewport_to_world(..).unwrap()` panics
      | some wp =>
          let w2 := positionStep w lp wp it
          match findHit f.assets lp wp (receiverQuery w2) with
          | none => none
          | some (some r) =>
              if it.drg.hovering = some r then
                some (w2, [], true)
              else
                some (updEnt w2 it.ent (fun o =>
                    { o with dragging := o.dragging.map fun d => { d with hovering := some r } }),
                  [Event.HoveredChange it.ent (some r) it.drg.hovering inputs], true)
          | some none =>
              if it.drg.hovering.isSome then
                some (updEnt w2 it.ent (fun o =>
                    { o with dragging := o.dragging.map fun d => { d with hovering := none } }),
                  [Event.HoveredChange it.ent none it.drg.hovering inputs], false)
              else
                some (w2, [], false)

/-- The loop of the `dragging` system over the query snapshot. -/
def draggingGo (f : FrameInput) (inputs : InputFlags) :
    List DragItem → World → List Event → Option (World × List Event)
  | [], w, evs => some (w, evs)
  | it :: rest, w, evs =>
      match dragIter w f inputs it with
      | none => none
      | some (w', evs', early) =>
          if early then some (w', evs ++ evs')
          else draggingGo f inputs rest w' (evs ++ evs')

/-- The `dragging` system. -/
def draggingSys (w : World) (f : FrameInput) : Option (World × List Event) :=
  draggingGo f (get_inputs f.raw) (dragItems w) w []

/-! ## The drop system -/

/-- The `q_dragging` query of `drop`: entities carrying both a
`Draggable` and a `Dragging`. -/
def dropQuery (w : World) : List (EntityId × Draggable × Dragging) :=
  w.filterMap fun o =>
    match o.draggable, o.dragging with
    | some d, some g => some (o.id, d, g)
    | _, _ => none

/-- The inner loop of `drop`: every dragging entity none of whose
required *click* bits is still pressed is dropped onto `received`. -/
def dropGo (inputs : InputFlags) (received : Option EntityId) :
    List (EntityId × Draggable × Dragging) → World → List Event → World × List Event
  | [], w, evs => (w, evs)
  | (e, d, g) :: rest, w, evs =>
      if !(inputs.intersects (d.required &&& InputFlags.Clicks)) then
        dropGo inputs received rest
          (updEnt w e fun o => { o with dragging := none })
          (evs ++ [Event.HoveredChange e none g.hovering inputs,
                   Event.Dropped e received inputs])
      else
        dropGo inputs received rest w evs

/-- The `drop` system. -/
def dropSys (w : World) (f : FrameInput) : Option (World × List Event) :=
  let inputs := get_inputs f.raw
  if (dropQuery w).isEmpty then
    some (w, [])
  else
    match f.cursor with
    | none => some (w, [])
    | some lp =>
        match f.proj with
        | none => none  -- `viewport_to_world(..).unwrap()` panics
        | some wp =>
            match findHit f.assets lp wp (receiverQuery w) with
            | none => none
            | some received => some (dropGo inputs received (dropQuery w) w [])

/-! ## One frame -/

/-- One frame: the four systems in the declared order
start-drag → await-drag → drag-update → drop-resolve. -/
def frame (w : World) (f : FrameInput) : Option (World × List Event) :=
  match startdrag w f with
  | none => none
  | some (w1, e1) =>
      let (w2, e2) := awaitdrag w1 f
      match draggingSys w2 f with
      | none => none
      | some (w3, e3) =>
          match dropSys w3 f with
          | none => none
          | some (w4, e4) => some (w4, e1 ++ e2 ++ e3 ++ e4)

/-- Worlds reachable from a state with no drag state at all, by any
sequence of non-panicking frames.  Entity ids are unique in a Bevy
world, so the base state carries `Nodup`. -/
inductive ReachableW : World → Prop
  | init (w : World) (h0 : countD w + countA w = 0)
      (hn : (w.map EntObj.id).Nodup) : ReachableW w
  | step (w : World) (f : FrameInput) (w' : World) (evs : List Event)
      (hr : ReachableW w) (hf : frame w f = some (w', evs)) : ReachableW w'

/-! ## General lemmas about `updEnt`, counts and queries -/

theorem ids_updEnt (w : World) (e : EntityId) (g : EntObj → EntObj)
    (hg : ∀ o, (g o).id = o.id) :
    (updEnt w e g).map EntObj.id = w.map EntObj.id := by
  unfold updEnt
  rw [List.map_map]
  apply List.map_congr_left
  intro o _
  by_cases h : o.id = e <;> simp [h, hg]

theorem countP_updEnt_eq (p : EntObj → Bool) (w : World) (e : EntityId)
    (g : EntObj → EntObj) (h : ∀ o, p (g o) = p o) :
    (updEnt w e g).countP p = w.countP p := by
  unfold updEnt
  rw [List.countP_map]
  induction w with
  | nil => rfl
  | cons o rest ih =>
      rw [List.countP_cons, List.countP_cons, ih]
      by_cases ho : o.id = e <;> simp [Function.comp, ho, h]

theorem countP_updEnt_le (p : EntObj → Bool) (w : World) (e : EntityId)
    (g : EntObj → EntObj) (h : ∀ o, p (g o) = true → p o = true) :
    (updEnt w e g).countP p ≤ w.countP p := by
  unfold updEnt
  rw [List.countP_map]
  apply List.countP_mono_left
  intro o _
  by_cases ho : o.id = e <;> simp [Function.comp, ho]
  exact h o

theorem countP_updEnt_le_add (p : EntObj → Bool) (w : World) (e : EntityId)
    (g : EntObj → EntObj) :
    (updEnt w e g).countP p ≤ w.countP p + w.countP (fun o => o.id == e) := by
  unfold updEnt
  induction w with
  | nil => simp
  | cons o rest ih =>
      simp only [List.map_cons, List.countP_cons]
      by_cases ho : o.id = e
      · have hbe : (o.id == e) = true := by simp [ho]
        rw [if_pos ho, if_pos hbe]
        by_cases hp : p (g o) = true
        · rw [if_pos hp]
          by_cases hpo : p o = true
          · rw [if_pos hpo]; omega
          · rw [if_neg hpo]; omega
        · rw [if_neg hp]
          by_cases hpo : p o = true
          · rw [if_pos hpo]; omega
          · rw [if_neg hpo]; omega
      · have hbe : ¬((o.id == e) = true) := by simp [ho]
        rw [if_neg ho, if_neg hbe]
        by_cases hpo : p o = true
        · rw [if_pos hpo]; omega
        · rw [if_neg hpo]; omega

theorem countP_updEnt_kill (p : EntObj → Bool) (w : World) (e : EntityId)
    (g : EntObj → EntObj) (hg : ∀ o, p (g o) = false)
    (hmem : ∃ o ∈ w, o.id = e ∧ p o = true) :
    (updEnt w e g).countP p + 1 ≤ w.countP p := by
  induction w with
  | nil => simp at hmem
  | cons o rest ih =>
      have hle : (updEnt rest e g).countP p ≤ rest.countP p :=
        countP_updEnt_le p rest e g (fun o h => absurd h (by simp [hg]))
      obtain ⟨o', ho', hid, hp⟩ := hmem
      simp only [updEnt, List.map_cons, List.countP_cons] at hle ⊢
      by_cases hoe : o.id = e
      · rw [if_pos hoe, if_neg (show ¬(p (g o) = true) by simp [hg])]
        by_cases hpo : p o = true
        · rw [if_pos hpo]
          omega
        · have ho'rest : o' ∈ rest := by
            rcases List.mem_cons.mp ho' with hh | hh
            · subst hh; exact absurd hp hpo
            · exact hh
          have hih := ih ⟨o', ho'rest, hid, hp⟩
          simp only [updEnt] at hih
          rw [if_neg hpo]
          omega
      · rw [if_neg hoe]
        have ho'rest : o' ∈ rest := by
          rcases List.mem_cons.mp ho' with hh | hh
          · subst hh; exact absurd hid hoe
          · exact hh
        have hih := ih ⟨o', ho'rest, hid, hp⟩
        simp only [updEnt] at hih
        by_cases hpo : p o = true
        · rw [if_pos hpo]; omega
        · rw [if_neg hpo]; omega

theorem countP_id_le_one (w : World) (e : EntityId)
    (hn : (w.map EntObj.id).Nodup) :
    w.countP (fun o => o.id == e) ≤ 1 := by
  induction w with
  | nil => simp
  | cons o rest ih =>
      simp only [List.map_cons, List.nodup_cons] at hn
      rw [List.countP_cons]
      by_cases h : o.id = e
      · have hz : rest.countP (fun o => o.id == e) = 0 := by
          rw [List.countP_eq_zero]
          intro a ha hpa
          exact hn.1 (by
            rw [List.mem_map]
            exact ⟨a, ha, by subst h; simpa using hpa⟩)
        simp [hz, h]
      · have hbe : ¬((o.id == e) = true) := by simp [h]
        rw [if_neg hbe]
        simpa using ih hn.2

theorem draggingEmpty_iff (w : World) : draggingEmpty w = true ↔ countD w = 0 := by
  unfold draggingEmpty countD
  rw [Bool.not_eq_true', List.any_eq_false, List.countP_eq_zero]

theorem awaitingEmpty_iff (w : World) : awaitingEmpty w = true ↔ countA w = 0 := by
  unfold awaitingEmpty countA
  rw [Bool.not_eq_true', List.any_eq_false, List.countP_eq_zero]

theorem lookupEnt_updEnt (w : World) (e e' : EntityId) (g : EntObj → EntObj)
    (hg : ∀ o, (g o).id = o.id) :
    lookupEnt (updEnt w e g) e' =
      (lookupEnt w e').map fun o => if o.id = e then g o else o := by
  induction w with
  | nil => rfl
  | cons o rest ih =>
      simp only [updEnt, lookupEnt, List.map_cons, List.find?_cons] at ih ⊢
      by_cases ho : o.id = e
      · rw [if_pos ho]
        cases hb : (o.id == e') with
        | true =>
            have : ((g o).id == e') = true := by rw [hg]; exact hb
            simp [this, hb, ho]
        | false =>
            have : ((g o).id == e') = false := by rw [hg]; exact hb
            simp only [this, hb]
            exact ih
      · rw [if_neg ho]
        cases hb : (o.id == e') with
        | true => simp [hb, ho]
        | false => simp only [hb]; exact ih

theorem lookupEnt_updEnt_self (w : World) (e : EntityId) (g : EntObj → EntObj)
    (hg : ∀ o, (g o).id = o.id) :
    lookupEnt (updEnt w e g) e = (lookupEnt w e).map g := by
  rw [lookupEnt_updEnt w e e g hg]
  cases h : lookupEnt w e with
  | none => rfl
  | some o =>
      have hid : o.id = e := by
        have := List.find?_some h
        simpa using this
      simp [hid]

theorem receiverQuery_updEnt (w : World) (e : EntityId) (g : EntObj → EntObj)
    (hg : ∀ o, (g o).id = o.id ∧ (g o).gtransform = o.gtransform ∧ (g o).sprite = o.sprite ∧
      (g o).computedNode = o.computedNode ∧ (g o).receiver = o.receiver) :
    receiverQuery (updEnt w e g) = receiverQuery w := by
  unfold receiverQuery updEnt
  rw [List.filterMap_map]
  congr 1
  funext o
  by_cases h : o.id = e
  · simp only [Function.comp, if_pos h, (hg o).1, (hg o).2.1, (hg o).2.2.1,
      (hg o).2.2.2.1, (hg o).2.2.2.2]
  · simp only [Function.comp, if_neg h]

theorem isSome_omap {α β : Type} (f : α → β) (x : Option α) :
    (x.map f).isSome = x.isSome := by
  cases x <;> rfl

/-- The global mutual-exclusion measure together with uniqueness of
entity ids (a Bevy world never has two entities with the same id). -/
def ExclInv (w : World) : Prop :=
  countD w + countA w ≤ 1 ∧ (w.map EntObj.id).Nodup

/-- Relation stating `w'` keeps the drag/await counts, the id list and the receiver
query of `w` (what the `dragging` system's writes guarantee). -/
def SameCounts (w w' : World) : Prop :=
  countD w' = countD w ∧ countA w' = countA w ∧
  w'.map EntObj.id = w.map EntObj.id ∧ receiverQuery w' = receiverQuery w

theorem SameCounts.refl (w : World) : SameCounts w w := ⟨rfl, rfl, rfl, rfl⟩

theorem SameCounts.trans {w1 w2 w3 : World}
    (h12 : SameCounts w1 w2) (h23 : SameCounts w2 w3) : SameCounts w1 w3 :=
  ⟨h23.1.trans h12.1, h23.2.1.trans h12.2.1, h23.2.2.1.trans h12.2.2.1,
   h23.2.2.2.trans h12.2.2.2⟩

/-- Updates that keep id, presence of `Dragging`/`AwaitingDrag`, and all
receiver-query fields do not disturb `SameCounts`. -/
theorem sameCounts_updEnt (w : World) (e : EntityId) (g : EntObj → EntObj)
    (hid : ∀ o, (g o).id = o.id)
    (hd : ∀ o, (g o).dragging.isSome = o.dragging.isSome)
    (ha : ∀ o, (g o).awaiting.isSome = o.awaiting.isSome)
    (hr : ∀ o, (g o).gtransform = o.gtransform ∧ (g o).sprite = o.sprite ∧
      (g o).computedNode = o.computedNode ∧ (g o).receiver = o.receiver) :
    SameCounts w (updEnt w e g) :=
  ⟨countP_updEnt_eq _ w e g hd, countP_updEnt_eq _ w e g ha,
   ids_updEnt w e g hid,
   receiverQuery_updEnt w e g (fun o => ⟨hid o, (hr o).1, (hr o).2.1, (hr o).2.2.1, (hr o).2.2.2⟩)⟩

theorem reparentStep_same (w : World) (it : DragItem) :
    SameCounts w (reparentStep w it) := by
  unfold reparentStep
  split
  · exact sameCounts_updEnt _ _ _ (fun o => rfl)
      (fun o => isSome_omap _ _) (fun o => rfl)
      (fun o => ⟨rfl, rfl, rfl, rfl⟩)
  · exact SameCounts.refl w

theorem positionWrite_same (w : World) (lp wp : Vec2) (it : DragItem) :
    SameCounts w (positionWrite w lp wp it) := by
  unfold positionWrite
  split
  · split
    · exact sameCounts_updEnt _ _ _ (fun o => rfl) (fun o => rfl) (fun o => rfl)
        (fun o => ⟨rfl, rfl, rfl, rfl⟩)
    · split
      · split
        · exact sameCounts_updEnt _ _ _ (fun o => rfl) (fun o => rfl) (fun o => rfl)
            (fun o => ⟨rfl, rfl, rfl, rfl⟩)
        · exact SameCounts.refl _
      · exact SameCounts.refl _
  · exact sameCounts_updEnt _ _ _ (fun o => rfl) (fun o => rfl) (fun o => rfl)
      (fun o => ⟨rfl, rfl, rfl, rfl⟩)

theorem visibleWrite_same (w : World) (it : DragItem) :
    SameCounts w (visibleWrite w it) :=
  sameCounts_updEnt _ _ _ (fun o => rfl) (fun o => rfl) (fun o => rfl)
    (fun o => ⟨rfl, rfl, rfl, rfl⟩)

theorem positionStep_same (w : World) (lp wp : Vec2) (it : DragItem) :
    SameCounts w (positionStep w lp wp it) :=
  ((reparentStep_same w it).trans
    (positionWrite_same (reparentStep w it) lp wp it)).trans
    (visibleWrite_same (positionWrite (reparentStep w it) lp wp it) it)

theorem dragIter_same (w : World) (f : FrameInput) (inputs : InputFlags) (it : DragItem)
    (w' : World) (evs : List Event) (early : Bool)
    (h : dragIter w f inputs it = some (w', evs, early)) : SameCounts w w' := by
  unfold dragIter at h
  cases hc : f.cursor with
  | none =>
      simp only [hc] at h
      simp only [Option.some.injEq, Prod.mk.injEq] at h
      exact h.1 ▸ SameCounts.refl w
  | some lp =>
      simp only [hc] at h
      cases hp : f.proj with
      | none => rw [hp] at h; exact absurd h (by simp)
      | some wp =>
          simp only [hp] at h
          cases hf : findHit f.assets lp wp (receiverQuery (positionStep w lp wp it)) with
          | none => rw [hf] at h; exact absurd h (by simp)
          | some r0 =>
              simp only [hf] at h
              cases r0 with
              | some r =>
                  dsimp only at h
                  by_cases hh : it.drg.hovering = some r
                  · rw [if_pos hh] at h
                    simp only [Option.some.injEq, Prod.mk.injEq] at h
                    exact h.1 ▸ positionStep_same w lp wp it
                  · rw [if_neg hh] at h
                    simp only [Option.some.injEq, Prod.mk.injEq] at h
                    refine h.1 ▸ (positionStep_same w lp wp it).trans ?_
                    exact sameCounts_updEnt _ _ _ (fun o => rfl)
                      (fun o => isSome_omap _ _) (fun o => rfl)
                      (fun o => ⟨rfl, rfl, rfl, rfl⟩)
              | none =>
                  dsimp only at h
                  by_cases hh : it.drg.hovering.isSome = true
                  · rw [if_pos hh] at h
                    simp only [Option.some.injEq, Prod.mk.injEq] at h
                    refine h.1 ▸ (positionStep_same w lp wp it).trans ?_
                    exact sameCounts_updEnt _ _ _ (fun o => rfl)
                      (fun o => isSome_omap _ _) (fun o => rfl)
                      (fun o => ⟨rfl, rfl, rfl, rfl⟩)
                  · rw [if_neg hh] at h
                    simp only [Option.some.injEq, Prod.mk.injEq] at h
                    exact h.1 ▸ positionStep_same w lp wp it

theorem draggingGo_same (f : FrameInput) (inputs : InputFlags) :
    ∀ (items : List DragItem) (w : World) (evs : List Event) (w' : World)
      (evs' : List Event),
      draggingGo f inputs items w evs = some (w', evs') → SameCounts w w'
  | [], w, evs, w', evs', h => by
      unfold draggingGo at h
      simp only [Option.some.injEq, Prod.mk.injEq] at h
      exact h.1 ▸ SameCounts.refl w
  | it :: rest, w, evs, w', evs', h => by
      unfold draggingGo at h
      split at h
      · exact absurd h (by simp)
      · rename_i w1 evs1 early heq
        have h1 : SameCounts w w1 := dragIter_same w f inputs it w1 evs1 early heq
        split at h
        · simp only [Option.some.injEq, Prod.mk.injEq] at h
          exact h.1 ▸ h1
        · exact h1.trans (draggingGo_same f inputs rest w1 (evs ++ evs1) w' evs' h)

theorem draggingSys_same (w : World) (f : FrameInput) (w' : World) (evs : List Event)
    (h : draggingSys w f = some (w', evs)) : SameCounts w w' :=
  draggingGo_same f (get_inputs f.raw) (dragItems w) w [] w' evs h

theorem startdrag_inv (w : World) (f : FrameInput) (w' : World) (evs : List Event)
    (h : startdrag w f = some (w', evs)) (hi : ExclInv w) :
    w'.map EntObj.id = w.map EntObj.id ∧ ExclInv w' := by
  unfold startdrag at h
  dsimp only at h
  split at h
  · rename_i hc
    rw [Bool.and_eq_true, Bool.and_eq_true] at hc
    have hd0 : countD w = 0 := (draggingEmpty_iff w).mp hc.1.2
    have ha0 : countA w = 0 := (awaitingEmpty_iff w).mp hc.2
    cases hcur : f.cursor with
    | none =>
        simp only [hcur, Option.some.injEq, Prod.mk.injEq] at h
        exact h.1 ▸ ⟨rfl, hi⟩
    | some lp =>
        simp only [hcur] at h
        cases hproj : f.proj with
        | none => rw [hproj] at h; exact absurd h (by simp)
        | some wp =>
            simp only [hproj] at h
            cases hcol : collectCands f.assets (get_inputs f.raw) lp wp (draggableQuery w) with
            | none => rw [hcol] at h; exact absurd h (by simp)
            | some cands =>
                simp only [hcol] at h
                cases cands with
                | nil =>
                    simp only [Option.some.injEq, Prod.mk.injEq] at h
                    exact h.1 ▸ ⟨rfl, hi⟩
                | cons c rest =>
                    dsimp only at h
                    cases hmh : (pickMax c rest).drg.minimum_held with
                    | some x =>
                        simp only [hmh, Option.some.injEq, Prod.mk.injEq] at h
                        have hids : (updEnt w (pickMax c rest).ent fun o =>
                            { o with awaiting := some ⟨f.time + x⟩ }).map EntObj.id
                            = w.map EntObj.id := ids_updEnt _ _ _ (fun o => rfl)
                        have hcd : countD (updEnt w (pickMax c rest).ent fun o =>
                            { o with awaiting := some ⟨f.time + x⟩ }) = countD w :=
                          countP_updEnt_eq _ _ _ _ (fun o => rfl)
                        have hca : countA (updEnt w (pickMax c rest).ent fun o =>
                            { o with awaiting := some ⟨f.time + x⟩ })
                            ≤ countA w + w.countP (fun o => o.id == (pickMax c rest).ent) :=
                          countP_updEnt_le_add _ _ _ _
                        have hone := countP_id_le_one w (pickMax c rest).ent hi.2
                        refine h.1 ▸ ⟨hids, ?_, hids ▸ hi.2⟩
                        omega
                    | none =>
                        simp only [hmh, Option.some.injEq, Prod.mk.injEq] at h
                        have hids : (updEnt w (pickMax c rest).ent fun o =>
                            { o with dragging := some ⟨none, false⟩ }).map EntObj.id
                            = w.map EntObj.id := ids_updEnt _ _ _ (fun o => rfl)
                        have hca : countA (updEnt w (pickMax c rest).ent fun o =>
                            { o with dragging := some ⟨none, false⟩ }) = countA w :=
                          countP_updEnt_eq _ _ _ _ (fun o => rfl)
                        have hcd : countD (updEnt w (pickMax c rest).ent fun o =>
                            { o with dragging := some ⟨none, false⟩ })
                            ≤ countD w + w.countP (fun o => o.id == (pickMax c rest).ent) :=
                          countP_updEnt_le_add _ _ _ _
                        have hone := countP_id_le_one w (pickMax c rest).ent hi.2
                        refine h.1 ▸ ⟨hids, ?_, hids ▸ hi.2⟩
                        omega
  · simp only [Option.some.injEq, Prod.mk.injEq] at h
    exact h.1 ▸ ⟨rfl, hi⟩

theorem awaitQuery_len (w : World) : (awaitQuery w).length ≤ countA w := by
  unfold awaitQuery countA
  induction w with
  | nil => simp
  | cons o rest ih =>
      rw [List.filterMap_cons, List.countP_cons]
      cases hd : o.draggable <;> cases ha : o.awaiting <;>
        simp only [hd, ha, Option.isSome_some, Option.isSome_none] <;> simp <;> omega

theorem awaitQuery_mem (w : World) (x : EntityId × Draggable × AwaitingDrag)
    (hx : x ∈ awaitQuery w) :
    ∃ o ∈ w, o.id = x.1 ∧ o.draggable = some x.2.1 ∧ o.awaiting = some x.2.2 := by
  unfold awaitQuery at hx
  rw [List.mem_filterMap] at hx
  obtain ⟨o, ho, hfo⟩ := hx
  refine ⟨o, ho, ?_⟩
  cases hd : o.draggable <;> cases ha : o.awaiting <;>
    simp only [hd, ha] at hfo <;> cases hfo <;> simp

theorem awaitdrag_inv (w : World) (f : FrameInput) (hi : ExclInv w) :
    (awaitdrag w f).1.map EntObj.id = w.map EntObj.id ∧ ExclInv (awaitdrag w f).1 := by
  unfold awaitdrag
  have hlen := awaitQuery_len w
  cases hq : awaitQuery w with
  | nil => exact ⟨rfl, hi⟩
  | cons x xs =>
      cases xs with
      | cons y ys =>
          exfalso
          rw [hq] at hlen
          simp only [List.length_cons] at hlen
          have := hi.1
          omega
      | nil =>
          obtain ⟨e, d, a⟩ := x
          obtain ⟨o, how, hid, hdr, haw⟩ := awaitQuery_mem w (e, d, a) (by rw [hq]; simp)
          unfold awaitGo
          split
          · split
            · -- promote: insert Dragging, remove AwaitingDrag
              dsimp only
              have hids : (updEnt w e fun o =>
                  { o with dragging := some ⟨none, false⟩, awaiting := none }).map EntObj.id
                  = w.map EntObj.id := ids_updEnt _ _ _ (fun o => rfl)
              have hcd : countD (updEnt w e fun o =>
                  { o with dragging := some ⟨none, false⟩, awaiting := none })
                  ≤ countD w + w.countP (fun o => o.id == e) :=
                countP_updEnt_le_add _ _ _ _
              have hca : countA (updEnt w e fun o =>
                  { o with dragging := some ⟨none, false⟩, awaiting := none }) + 1
                  ≤ countA w :=
                countP_updEnt_kill _ _ _ _ (fun o => rfl)
                  ⟨o, how, hid, by rw [haw]; rfl⟩
              have hone := countP_id_le_one w e hi.2
              have := hi.1
              exact ⟨hids, by omega, hids ▸ hi.2⟩
            · exact ⟨rfl, hi⟩
          · -- cancel: remove AwaitingDrag, keep scanning the empty tail
            unfold awaitGo
            dsimp only
            have hids : (updEnt w e fun o => { o with awaiting := none }).map EntObj.id
                = w.map EntObj.id := ids_updEnt _ _ _ (fun o => rfl)
            have hcd : countD (updEnt w e fun o => { o with awaiting := none }) = countD w :=
              countP_updEnt_eq _ _ _ _ (fun o => rfl)
            have hca : countA (updEnt w e fun o => { o with awaiting := none }) ≤ countA w :=
              countP_updEnt_le _ _ _ _ (fun o ho => by simp at ho)
            have := hi.1
            exact ⟨hids, by omega, hids ▸ hi.2⟩

theorem dropGo_inv (inputs : InputFlags) (received : Option EntityId) :
    ∀ (q : List (EntityId × Draggable × Dragging)) (w : World) (evs : List Event),
      countD (dropGo inputs received q w evs).1 ≤ countD w ∧
      countA (dropGo inputs received q w evs).1 = countA w ∧
      (dropGo inputs received q w evs).1.map EntObj.id = w.map EntObj.id
  | [], w, evs => by
      unfold dropGo
      exact ⟨le_refl _, rfl, rfl⟩
  | (e, d, g) :: rest, w, evs => by
      unfold dropGo
      split
      · have hih := dropGo_inv inputs received rest
          (updEnt w e fun o => { o with dragging := none })
          (evs ++ [Event.HoveredChange e none g.hovering inputs,
                   Event.Dropped e received inputs])
        have hcd : countD (updEnt w e fun o => { o with dragging := none }) ≤ countD w :=
          countP_updEnt_le _ _ _ _ (fun o ho => by simp at ho)
        have hca : countA (updEnt w e fun o => { o with dragging := none }) = countA w :=
          countP_updEnt_eq _ _ _ _ (fun o => rfl)
        have hids : (updEnt w e fun o => { o with dragging := none }).map EntObj.id
            = w.map EntObj.id := ids_updEnt _ _ _ (fun o => rfl)
        exact ⟨le_trans hih.1 hcd, hih.2.1.trans hca, hih.2.2.trans hids⟩
      · exact dropGo_inv inputs received rest w evs

theorem dropSys_inv (w : World) (f : FrameInput) (w' : World) (evs : List Event)
    (h : dropSys w f = some (w', evs)) (hi : ExclInv w) :
    w'.map EntObj.id = w.map EntObj.id ∧ ExclInv w' := by
  unfold dropSys at h
  dsimp only at h
  split at h
  · simp only [Option.some.injEq, Prod.mk.injEq] at h
    exact h.1 ▸ ⟨rfl, hi⟩
  · cases hcur : f.cursor with
    | none =>
        simp only [hcur, Option.some.injEq, Prod.mk.injEq] at h
        exact h.1 ▸ ⟨rfl, hi⟩
    | some lp =>
        simp only [hcur] at h
        cases hproj : f.proj with
        | none => rw [hproj] at h; exact absurd h (by simp)
        | some wp =>
            simp only [hproj] at h
            cases hf : findHit f.assets lp wp (receiverQuery w) with
            | none => rw [hf] at h; exact absurd h (by simp)
            | some received =>
                simp only [hf, Option.some.injEq] at h
                have hgo := dropGo_inv (get_inputs f.raw) received (dropQuery w) w []
                have h1 : (dropGo (get_inputs f.raw) received (dropQuery w) w []).1 = w' :=
                  congrArg Prod.fst h
                refine ⟨h1 ▸ hgo.2.2, ?_, ?_⟩
                · have h2 := hgo.1
                  have h3 := hgo.2.1
                  rw [h1] at h2 h3
                  have := hi.1
                  omega
                · have h4 := hgo.2.2
                  rw [h1] at h4
                  rw [h4]
                  exact hi.2

theorem frame_inv (w : World) (f : FrameInput) (w' : World) (evs : List Event)
    (h : frame w f = some (w', evs)) (hi : ExclInv w) :
    w'.map EntObj.id = w.map EntObj.id ∧ ExclInv w' := by
  unfold frame at h
  cases h1 : startdrag w f with
  | none => rw [h1] at h; exact absurd h (by simp)
  | some p1 =>
      obtain ⟨w1, e1⟩ := p1
      have hi1 := startdrag_inv w f w1 e1 h1 hi
      simp only [h1] at h
      have hi2 := awaitdrag_inv w1 f hi1.2
      cases h3 : draggingSys (awaitdrag w1 f).1 f with
      | none => rw [h3] at h; exact absurd h (by simp)
      | some p3 =>
          obtain ⟨w3, e3⟩ := p3
          have hs3 := draggingSys_same (awaitdrag w1 f).1 f w3 e3 h3
          have hi3 : ExclInv w3 := by
            constructor
            · rw [hs3.1, hs3.2.1]; exact hi2.2.1
            · rw [hs3.2.2.1]; exact hi2.2.2
          simp only [h3] at h
          cases h4 : dropSys w3 f with
          | none => rw [h4] at h; exact absurd h (by simp)
          | some p4 =>
              obtain ⟨w4, e4⟩ := p4
              have hi4 := dropSys_inv w3 f w4 e4 h4 hi3
              simp only [h4, Option.some.injEq, Prod.mk.injEq] at h
              rw [h.1] at hi4
              exact ⟨hi4.1.trans (hs3.2.2.1.trans (hi2.1.trans hi1.1)), hi4.2⟩

/-! ## Observation helpers -/

/-- The `hovering` field of an entity's `Dragging` component, when the
entity exists and carries one. -/
def hoveringOf (w : World) (e : EntityId) : Option (Option EntityId) :=
  match lookupEnt w e with
  | some o => o.dragging.map fun d => d.hovering
  | none => none

/-- The `Visibility` component of an entity, when the entity exists. -/
def visibilityOf (w : World) (e : EntityId) : Option Visibility :=
  match lookupEnt w e with
  | some o => o.visibility
  | none => none

theorem lookup_of_mem (w : World) (o : EntObj) (hn : (w.map EntObj.id).Nodup)
    (ho : o ∈ w) : lookupEnt w o.id = some o := by
  induction w with
  | nil => cases ho
  | cons o' rest ih =>
      simp only [List.map_cons, List.nodup_cons] at hn
      rcases List.mem_cons.mp ho with h | h
      · subst h
        unfold lookupEnt
        simp [List.find?_cons]
      · have hne : o'.id ≠ o.id := by
          intro he
          exact hn.1 (he ▸ List.mem_map.mpr ⟨o, h, rfl⟩)
        unfold lookupEnt
        rw [List.find?_cons]
        have : (o'.id == o.id) = false := by simp [hne]
        rw [this]
        exact ih hn.2 h

theorem dragItems_mem (w : World) (it : DragItem) (h : it ∈ dragItems w) :
    ∃ o ∈ w, o.id = it.ent ∧ o.transform = some it.transform ∧
      o.dragging = some it.drg ∧ o.childOf = it.childOf ∧
      o.node = it.node ∧ o.dragOffset = it.offset := by
  unfold dragItems at h
  rw [List.mem_filterMap] at h
  obtain ⟨o, ho, hfo⟩ := h
  refine ⟨o, ho, ?_⟩
  cases ht : o.transform <;> cases hd : o.dragging <;>
    simp only [ht, hd] at hfo <;> cases hfo <;> simp [ht, hd]

/-- With a single item in the `dragging` query, the system is exactly
its one loop iteration. -/
theorem draggingSys_single (w : World) (f : FrameInput) (it : DragItem)
    (hitems : dragItems w = [it]) :
    draggingSys w f =
      (dragIter w f (get_inputs f.raw) it).map fun x => (x.1, x.2.1) := by
  unfold draggingSys
  rw [hitems]
  unfold draggingGo
  cases h : dragIter w f (get_inputs f.raw) it with
  | none => rfl
  | some x =>
      obtain ⟨w1, evs1, early⟩ := x
      dsimp only
      cases early with
      | true => simp
      | false =>
          unfold draggingGo
          simp

/-! ## No-cursor frames -/

theorem dragIter_nocursor (w : World) (f : FrameInput) (inputs : InputFlags)
    (it : DragItem) (hc : f.cursor = none) :
    dragIter w f inputs it = some (w, [], false) := by
  unfold dragIter
  rw [hc]

theorem draggingGo_nocursor (f : FrameInput) (inputs : InputFlags)
    (hc : f.cursor = none) :
    ∀ (items : List DragItem) (w : World) (evs : List Event),
      draggingGo f inputs items w evs = some (w, evs)
  | [], w, evs => by unfold draggingGo; rfl
  | it :: rest, w, evs => by
      unfold draggingGo
      rw [dragIter_nocursor w f inputs it hc]
      dsimp only
      rw [List.append_nil]
      exact draggingGo_nocursor f inputs hc rest w evs

theorem draggingSys_nocursor (w : World) (f : FrameInput) (hc : f.cursor = none) :
    draggingSys w f = some (w, []) :=
  draggingGo_nocursor f (get_inputs f.raw) hc (dragItems w) w []

theorem dropSys_nocursor (w : World) (f : FrameInput) (hc : f.cursor = none) :
    dropSys w f = some (w, []) := by
  unfold dropSys
  dsimp only
  split
  · rfl
  · rw [hc]

theorem startdrag_nocursor (w : World) (f : FrameInput) (hc : f.cursor = none) :
    startdrag w f = some (w, []) := by
  unfold startdrag
  dsimp only
  split
  · rw [hc]
  · rfl

theorem hoveringOf_updEnt_keep (w : World) (e' e : EntityId) (g : EntObj → EntObj)
    (hid : ∀ o, (g o).id = o.id)
    (hh : ∀ o, (g o).dragging.map (fun d => d.hovering) =
      o.dragging.map fun d => d.hovering) :
    hoveringOf (updEnt w e' g) e = hoveringOf w e := by
  unfold hoveringOf
  rw [lookupEnt_updEnt w e' e g hid]
  cases h : lookupEnt w e with
  | none => rfl
  | some o =>
      simp only [Option.map_some']
      by_cases ho : o.id = e'
      · rw [if_pos ho]
        exact hh o
      · rw [if_neg ho]

theorem visibilityOf_updEnt_keep (w : World) (e' e : EntityId) (g : EntObj → EntObj)
    (hid : ∀ o, (g o).id = o.id)
    (hv : ∀ o, (g o).visibility = o.visibility) :
    visibilityOf (updEnt w e' g) e = visibilityOf w e := by
  unfold visibilityOf
  rw [lookupEnt_updEnt w e' e g hid]
  cases h : lookupEnt w e with
  | none => rfl
  | some o =>
      simp only [Option.map_some']
      by_cases ho : o.id = e'
      · rw [if_pos ho]
        exact hv o
      · rw [if_neg ho]

theorem hoveringOf_reparentStep (w : World) (it : DragItem) (e : EntityId) :
    hoveringOf (reparentStep w it) e = hoveringOf w e := by
  unfold reparentStep
  split
  · exact hoveringOf_updEnt_keep _ _ _ _ (fun o => rfl)
      (fun o => by cases o.dragging <;> rfl)
  · rfl

theorem hoveringOf_positionWrite (w : World) (lp wp : Vec2) (it : DragItem)
    (e : EntityId) :
    hoveringOf (positionWrite w lp wp it) e = hoveringOf w e := by
  unfold positionWrite
  split
  · split
    · exact hoveringOf_updEnt_keep _ _ _ _ (fun o => rfl) (fun o => rfl)
    · split
      · split
        · exact hoveringOf_updEnt_keep _ _ _ _ (fun o => rfl) (fun o => rfl)
        · rfl
      · rfl
  · exact hoveringOf_updEnt_keep _ _ _ _ (fun o => rfl) (fun o => rfl)

theorem hoveringOf_visibleWrite (w : World) (it : DragItem) (e : EntityId) :
    hoveringOf (visibleWrite w it) e = hoveringOf w e :=
  hoveringOf_updEnt_keep _ _ _ _ (fun o => rfl) (fun o => rfl)

theorem hoveringOf_positionStep (w : World) (lp wp : Vec2) (it : DragItem)
    (e : EntityId) :
    hoveringOf (positionStep w lp wp it) e = hoveringOf w e := by
  unfold positionStep
  rw [hoveringOf_visibleWrite, hoveringOf_positionWrite, hoveringOf_reparentStep]

theorem visibilityOf_reparentStep (w : World) (it : DragItem) (e : EntityId) :
    visibilityOf (reparentStep w it) e = visibilityOf w e := by
  unfold reparentStep
  split
  · exact visibilityOf_updEnt_keep _ _ _ _ (fun o => rfl) (fun o => rfl)
  · rfl

theorem visibilityOf_positionWrite (w : World) (lp wp : Vec2) (it : DragItem)
    (e : EntityId) :
    visibilityOf (positionWrite w lp wp it) e = visibilityOf w e := by
  unfold positionWrite
  split
  · split
    · exact visibilityOf_updEnt_keep _ _ _ _ (fun o => rfl) (fun o => rfl)
    · split
      · split
        · exact visibilityOf_updEnt_keep _ _ _ _ (fun o => rfl) (fun o => rfl)
        · rfl
      · rfl
  · exact visibilityOf_updEnt_keep _ _ _ _ (fun o => rfl) (fun o => rfl)

theorem visibilityOf_visibleWrite_self (w : World) (it : DragItem) :
    visibilityOf (visibleWrite w it) it.ent =
      (visibilityOf w it.ent).map fun _ => Visibility.Visible := by
  unfold visibleWrite visibilityOf
  rw [lookupEnt_updEnt_self w it.ent (fun o =>
    { o with visibility := o.visibility.map fun _ => Visibility.Visible })
    (fun o => rfl)]
  cases h : lookupEnt w it.ent with
  | none => rfl
  | some o => rfl

theorem visibilityOf_positionStep_self (w : World) (lp wp : Vec2) (it : DragItem) :
    visibilityOf (positionStep w lp wp it) it.ent =
      (visibilityOf w it.ent).map fun _ => Visibility.Visible := by
  unfold positionStep
  rw [visibilityOf_visibleWrite_self, visibilityOf_positionWrite,
    visibilityOf_reparentStep]

theorem hoveringOf_set (w : World) (e : EntityId) (v : Option EntityId)
    (h0 : Option EntityId) (hh : hoveringOf w e = some h0) :
    hoveringOf (updEnt w e fun o =>
      { o with dragging := o.dragging.map fun d => { d with hovering := v } }) e
      = some v := by
  unfold hoveringOf at hh ⊢
  rw [lookupEnt_updEnt_self w e (fun o =>
    { o with dragging := o.dragging.map fun d => { d with hovering := v } })
    (fun o => rfl)]
  cases hl : lookupEnt w e with
  | none => rw [hl] at hh; cases hh
  | some o =>
      rw [hl] at hh
      dsimp only at hh
      simp only [Option.map_some']
      cases hd : o.dragging with
      | none => simp [hd] at hh
      | some d => simp [hd]

/-- The full hover outcome of one `dragging` iteration when the cursor
and projection exist and every receiver hit test is defined. -/
theorem dragIter_spec (w : World) (f : FrameInput) (inputs : InputFlags) (it : DragItem)
    (lp wp : Vec2) (tgt : Option EntityId)
    (hc : f.cursor = some lp) (hp : f.proj = some wp)
    (hf : findHit f.assets lp wp (receiverQuery w) = some tgt) :
    dragIter w f inputs it =
      match tgt with
      | some r =>
          if it.drg.hovering = some r then some (positionStep w lp wp it, [], true)
          else
            some (updEnt (positionStep w lp wp it) it.ent (fun o =>
                { o with dragging := o.dragging.map fun d => { d with hovering := some r } }),
              [Event.HoveredChange it.ent (some r) it.drg.hovering inputs], true)
      | none =>
          if it.drg.hovering.isSome then
            some (updEnt (positionStep w lp wp it) it.ent (fun o =>
                { o with dragging := o.dragging.map fun d => { d with hovering := none } }),
              [Event.HoveredChange it.ent none it.drg.hovering inputs], false)
          else some (positionStep w lp wp it, [], false) := by
  have hrq : receiverQuery (positionStep w lp wp it) = receiverQuery w :=
    (positionStep_same w lp wp it).2.2.2
  unfold dragIter
  simp only [hc, hp]
  simp only [hrq, hf]
  cases tgt with
  | some r => dsimp only
  | none => dsimp only

/-! ## Concrete test fixtures -/

/-- A bare entity with no components, used to build concrete worlds. -/
def blankEnt (i : EntityId) : EntObj :=
  { id := i, gtransform := none, transform := none, sprite := none, node := none,
    computedNode := none, draggable := none, dragging := none, awaiting := none,
    receiver := false, dragOffset := none, childOf := none, visibility := none,
    zindex := none }

/-- Only the left mouse button pressed. -/
def rawLeft : RawInput := ⟨true, false, false, false, false, false, false, false, false⟩

/-- Nothing pressed. -/
def rawNone : RawInput := ⟨false, false, false, false, false, false, false, false, false⟩

/-! ## Claims -/

/-- C10: the boolean-multiplication encoding is exact for 0/1
multipliers — for every well-formed `InputFlags` value `fl` (only named
bits, i.e. `fl < 64`), `fl * 1 = fl` and `fl * 0 = ∅` under the
`Mul<u8>` instance; the snapshot built by `get_inputs` has exactly the
bits whose button/key is pressed (bit 0 left, 1 right, 2 middle,
3 shift, 4 ctrl, 5 alt, nothing above), and equal raw press states
yield equal bitsets. -/
theorem inputflags_mul_exact_C10 :
    (∀ fl : InputFlags, fl < 64 → fl.mul 1 = fl ∧ fl.mul 0 = 0) ∧
    (∀ a b c d e g h i j : Bool,
      (get_inputs ⟨a, b, c, d, e, g, h, i, j⟩).testBit 0 = a ∧
      (get_inputs ⟨a, b, c, d, e, g, h, i, j⟩).testBit 1 = b ∧
      (get_inputs ⟨a, b, c, d, e, g, h, i, j⟩).testBit 2 = c ∧
      (get_inputs ⟨a, b, c, d, e, g, h, i, j⟩).testBit 3 = (d || e) ∧
      (get_inputs ⟨a, b, c, d, e, g, h, i, j⟩).testBit 4 = (g || h) ∧
      (get_inputs ⟨a, b, c, d, e, g, h, i, j⟩).testBit 5 = (i || j) ∧
      get_inputs ⟨a, b, c, d, e, g, h, i, j⟩ < 64) ∧
    (∀ r1 r2 : RawInput,
      r1.left = r2.left → r1.right = r2.right → r1.middle = r2.middle →
      r1.shiftL = r2.shiftL → r1.shiftR = r2.shiftR → r1.ctrlL = r2.ctrlL →
      r1.ctrlR = r2.ctrlR → r1.altL = r2.altL → r1.altR = r2.altR →
      get_inputs r1 = get_inputs r2) := by
  refine ⟨by decide, by decide, ?_⟩
  intro r1 r2 h1 h2 h3 h4 h5 h6 h7 h8 h9
  cases r1
  cases r2
  simp only at h1 h2 h3 h4 h5 h6 h7 h8 h9
  subst h1 h2 h3 h4 h5 h6 h7 h8 h9
  rfl

theorem inputflags_mul_exact_C10_witness :
    InputFlags.mul 43 1 = 43 ∧ InputFlags.mul 43 0 = 0 :=
  inputflags_mul_exact_C10.1 43 (by decide)

/-- C7: hit tester mode selection and geometry.  With a computed
UI-layout size the test is the size-rectangle centered at the global
translation against the logical position; otherwise it is the
scale-rectangle (times the image's pixel size for a sprite with a
loaded asset) centered at the global translation against the world
position; and the tester is a pure function of its inputs. -/
theorem is_in_bounds_modes_C7 :
    (∀ (gt : GlobalTransform) (sp : Option Sprite) (cn : ComputedNode)
        (assets : List (Nat × Image)) (lp wp : Vec2),
      is_in_bounds gt sp (some cn) assets lp wp =
        some (decide (gt.translation.x - cn.size.x / 2 ≤ lp.x) &&
          decide (lp.x ≤ gt.translation.x + cn.size.x / 2) &&
          decide (gt.translation.y - cn.size.y / 2 ≤ lp.y) &&
          decide (lp.y ≤ gt.translation.y + cn.size.y / 2))) ∧
    (∀ (gt : GlobalTransform) (assets : List (Nat × Image)) (lp wp : Vec2),
      is_in_bounds gt none none assets lp wp =
        some (decide (gt.translation.x - gt.scale.x / 2 ≤ wp.x) &&
          decide (wp.x ≤ gt.translation.x + gt.scale.x / 2) &&
          decide (gt.translation.y - gt.scale.y / 2 ≤ wp.y) &&
          decide (wp.y ≤ gt.translation.y + gt.scale.y / 2))) ∧
    (∀ (gt : GlobalTransform) (s : Sprite) (im : Image)
        (assets : List (Nat × Image)) (lp wp : Vec2),
      assetsGet assets s.image = some im →
      is_in_bounds gt (some s) none assets lp wp =
        some (decide (gt.translation.x - gt.scale.x * im.size.x / 2 ≤ wp.x) &&
          decide (wp.x ≤ gt.translation.x + gt.scale.x * im.size.x / 2) &&
          decide (gt.translation.y - gt.scale.y * im.size.y / 2 ≤ wp.y) &&
          decide (wp.y ≤ gt.translation.y + gt.scale.y * im.size.y / 2))) ∧
    (∀ (gt : GlobalTransform) (sp : Option Sprite) (cn : Option ComputedNode)
        (assets : List (Nat × Image)) (lp wp : Vec2),
      is_in_bounds gt sp cn assets lp wp = is_in_bounds gt sp cn assets lp wp) := by
  refine ⟨fun gt sp cn assets lp wp => rfl, fun gt assets lp wp => rfl, ?_,
    fun gt sp cn assets lp wp => rfl⟩
  intro gt s im assets lp wp him
  unfold is_in_bounds
  dsimp only
  rw [him]
  rfl

theorem is_in_bounds_modes_C7_witness :
    is_in_bounds ⟨⟨0, 0, 0⟩, ⟨2, 2, 1⟩⟩ (some ⟨5⟩) none [(5, ⟨⟨3, 4⟩⟩)] ⟨0, 0⟩ ⟨1, 1⟩ =
      some (decide ((0 : ℚ) - 2 * 3 / 2 ≤ 1) && decide ((1 : ℚ) ≤ 0 + 2 * 3 / 2) &&
        decide ((0 : ℚ) - 2 * 4 / 2 ≤ 1) && decide ((1 : ℚ) ≤ 0 + 2 * 4 / 2)) :=
  is_in_bounds_modes_C7.2.2.1 ⟨⟨0, 0, 0⟩, ⟨2, 2, 1⟩⟩ ⟨5⟩ ⟨⟨3, 4⟩⟩ [(5, ⟨⟨3, 4⟩⟩)]
    ⟨0, 0⟩ ⟨1, 1⟩ rfl

/-- C8: when the window reports no cursor position, `drop` and
`dragging` perform no action at all — the world (so every `Dragging`
component, its `hovering` field, and every transform) is returned
unchanged and no event of any kind is emitted. -/
theorem drop_nocursor_inert_C8 (w : World) (f : FrameInput) (hc : f.cursor = none) :
    dropSys w f = some (w, []) ∧ draggingSys w f = some (w, []) :=
  ⟨dropSys_nocursor w f hc, draggingSys_nocursor w f hc⟩

/-- A dragging world in which every tracked button is released. -/
def wC8 : World :=
  [{ blankEnt 0 with
      gtransform := some ⟨⟨0, 0, 0⟩, ⟨1, 1, 1⟩⟩, transform := some ⟨0, 0, 0⟩,
      draggable := some ⟨InputFlags.LeftClick,
        InputFlags.RightClick ||| InputFlags.MiddleClick, none⟩,
      dragging := some ⟨none, false⟩ }]

def fC8 : FrameInput :=
  { raw := rawNone, cursor := none, proj := none, assets := [], time := 0 }

theorem drop_nocursor_inert_C8_witness :
    dropSys wC8 fC8 = some (wC8, []) ∧ draggingSys wC8 fC8 = some (wC8, []) :=
  drop_nocursor_inert_C8 wC8 fC8 rfl

/-- A frame whose cursor exists but whose world projection failed, and
a dragging world: `drop` panics on its `unwrap`. -/
def fC4 : FrameInput :=
  { raw := rawNone, cursor := some ⟨0, 0⟩, proj := none, assets := [], time := 0 }

/-- C4 counterexample: the claim says environmental absence never
aborts, but a sprite whose image asset is missing makes `is_in_bounds`
panic (`assets.get(..).unwrap()`), and a cursor whose world projection
is absent makes `drop` panic (`viewport_to_world(..).unwrap()`); both
are modelled as `none`. -/
theorem no_abort_C4_counterexample :
    is_in_bounds ⟨⟨0, 0, 0⟩, ⟨1, 1, 1⟩⟩ (some ⟨7⟩) none [] ⟨0, 0⟩ ⟨0, 0⟩ = none ∧
    dropSys wC8 fC4 = none := ⟨rfl, rfl⟩

/-- C4 amended: the absence of a *cursor position* is treated as no
interaction this frame by all three cursor-using systems; but an entity
carrying a sprite whose image asset is absent panics the world-mode hit
test (and a missing world projection panics the systems that unwrap
it), rather than being treated as "not hit". -/
theorem no_abort_amended_C4 :
    (∀ (w : World) (f : FrameInput), f.cursor = none →
      startdrag w f = some (w, []) ∧ draggingSys w f = some (w, []) ∧
      dropSys w f = some (w, [])) ∧
    (∀ (gt : GlobalTransform) (s : Sprite) (assets : List (Nat × Image)) (lp wp : Vec2),
      assetsGet assets s.image = none →
      is_in_bounds gt (some s) none assets lp wp = none) := by
  constructor
  · intro w f hc
    exact ⟨startdrag_nocursor w f hc, draggingSys_nocursor w f hc,
      dropSys_nocursor w f hc⟩
  · intro gt s assets lp wp hm
    unfold is_in_bounds
    dsimp only
    rw [hm]

theorem no_abort_amended_C4_witness :
    (startdrag wC8 fC8 = some (wC8, []) ∧ draggingSys wC8 fC8 = some (wC8, []) ∧
      dropSys wC8 fC8 = some (wC8, [])) ∧
    is_in_bounds ⟨⟨0, 0, 0⟩, ⟨1, 1, 1⟩⟩ (some ⟨7⟩) none [] ⟨0, 0⟩ ⟨0, 0⟩ = none :=
  ⟨no_abort_amended_C4.1 wC8 fC8 rfl,
   no_abort_amended_C4.2 ⟨⟨0, 0, 0⟩, ⟨1, 1, 1⟩⟩ ⟨7⟩ [] ⟨0, 0⟩ ⟨0, 0⟩ rfl⟩

/-! ## Equation lemmas for startdrag and awaitdrag -/

theorem startdrag_eq_nocands (w : World) (f : FrameInput) (lp wp : Vec2)
    (hg : ((get_inputs f.raw).intersects InputFlags.Clicks && draggingEmpty w &&
      awaitingEmpty w) = true)
    (hc : f.cursor = some lp) (hp : f.proj = some wp)
    (hcol : collectCands f.assets (get_inputs f.raw) lp wp (draggableQuery w)
      = some []) :
    startdrag w f = some (w, []) := by
  unfold startdrag
  dsimp only
  rw [if_pos hg]
  simp only [hc, hp, hcol]

theorem startdrag_eq_cands (w : World) (f : FrameInput) (lp wp : Vec2)
    (c : Cand) (rest : List Cand)
    (hg : ((get_inputs f.raw).intersects InputFlags.Clicks && draggingEmpty w &&
      awaitingEmpty w) = true)
    (hc : f.cursor = some lp) (hp : f.proj = some wp)
    (hcol : collectCands f.assets (get_inputs f.raw) lp wp (draggableQuery w)
      = some (c :: rest)) :
    startdrag w f =
      match (pickMax c rest).drg.minimum_held with
      | some dur =>
          some (updEnt w (pickMax c rest).ent
              (fun o => { o with awaiting := some ⟨f.time + dur⟩ }),
            [Event.DragAwait (pickMax c rest).ent (get_inputs f.raw)])
      | none =>
          some (updEnt w (pickMax c rest).ent
              (fun o => { o with dragging := some ⟨none, false⟩ }),
            [Event.Dragged (pickMax c rest).ent (get_inputs f.raw)]) := by
  unfold startdrag
  dsimp only
  rw [if_pos hg]
  simp only [hc, hp, hcol]

theorem awaitdrag_single_wait (w : World) (f : FrameInput) (e : EntityId)
    (d : Draggable) (a : AwaitingDrag) (hq : awaitQuery w = [(e, d, a)])
    (hr : ((get_inputs f.raw).containsF d.required &&
      !(get_inputs f.raw).intersects d.disallowed) = true)
    (ht : ¬(f.time > a.ends)) : awaitdrag w f = (w, []) := by
  unfold awaitdrag
  rw [hq]
  unfold awaitGo
  rw [if_pos hr, if_neg ht]

theorem awaitdrag_single_promote (w : World) (f : FrameInput) (e : EntityId)
    (d : Draggable) (a : AwaitingDrag) (hq : awaitQuery w = [(e, d, a)])
    (hr : ((get_inputs f.raw).containsF d.required &&
      !(get_inputs f.raw).intersects d.disallowed) = true)
    (ht : f.time > a.ends) :
    awaitdrag w f =
      (updEnt w e (fun o =>
        { o with dragging := some ⟨none, false⟩, awaiting := none }),
       [Event.Dragged e (get_inputs f.raw)]) := by
  unfold awaitdrag
  rw [hq]
  unfold awaitGo
  rw [if_pos hr, if_pos ht]

theorem awaitdrag_single_cancel (w : World) (f : FrameInput) (e : EntityId)
    (d : Draggable) (a : AwaitingDrag) (hq : awaitQuery w = [(e, d, a)])
    (hr : ((get_inputs f.raw).containsF d.required &&
      !(get_inputs f.raw).intersects d.disallowed) = false) :
    awaitdrag w f = (updEnt w e (fun o => { o with awaiting := none }), []) := by
  unfold awaitdrag
  rw [hq]
  unfold awaitGo
  rw [if_neg (by rw [hr]; exact Bool.false_ne_true)]
  unfold awaitGo
  rfl

/-- Draggable used in the hold-timer fixtures: requires left click,
disallows right/middle, one-second hold. -/
def dC3 : Draggable :=
  ⟨InputFlags.LeftClick, InputFlags.RightClick ||| InputFlags.MiddleClick, some 1⟩

/-- World with one entity awaiting a drag whose deadline is 2. -/
def wC3 : World :=
  [{ blankEnt 0 with
      gtransform := some ⟨⟨0, 0, 0⟩, ⟨1, 1, 1⟩⟩, transform := some ⟨0, 0, 0⟩,
      draggable := some dC3, awaiting := some ⟨2⟩ }]

/-- Frame at elapsed time exactly 2 with the left button held. -/
def fC3 : FrameInput :=
  { raw := rawLeft, cursor := none, proj := none, assets := [], time := 2 }

/-- C3 counterexample: the deadline is `ends = 2` and elapsed time is
exactly 2, so "elapsed ≥ t + d" holds and the claim demands `Dragged`
at this frame — but `awaitdrag` (which tests `elapsed > ends` strictly)
emits nothing and leaves the world, including `AwaitingDrag`,
untouched. -/
theorem hold_timer_C3_counterexample :
    (get_inputs fC3.raw).containsF dC3.required = true ∧
    (get_inputs fC3.raw).intersects dC3.disallowed = false ∧
    fC3.time ≥ 2 ∧
    awaitQuery wC3 = [(0, dC3, ⟨2⟩)] ∧
    awaitdrag wC3 fC3 = (wC3, []) :=
  ⟨by decide, by decide, by norm_num [fC3], rfl, rfl⟩

/-- C3 amended: a qualifying start with `minimum_held = some d` at time
`now` attaches `AwaitingDrag{ends = now + d}` and emits `DragAwait`;
while qualifying input is held, `Dragged` is emitted and `Dragging`
attached at the first frame where elapsed time is **strictly greater
than** `t + d` (not `≥` as claimed) and at no earlier frame; if the
requirement fails beforehand, `AwaitingDrag` is removed with no
event. -/
theorem hold_timer_amended_C3 :
    (∀ (w : World) (f : FrameInput) (lp wp : Vec2) (c : Cand) (rest : List Cand)
        (dur : ℚ),
      ((get_inputs f.raw).intersects InputFlags.Clicks && draggingEmpty w &&
        awaitingEmpty w) = true →
      f.cursor = some lp → f.proj = some wp →
      collectCands f.assets (get_inputs f.raw) lp wp (draggableQuery w)
        = some (c :: rest) →
      (pickMax c rest).drg.minimum_held = some dur →
      startdrag w f = some (updEnt w (pickMax c rest).ent
          (fun o => { o with awaiting := some ⟨f.time + dur⟩ }),
        [Event.DragAwait (pickMax c rest).ent (get_inputs f.raw)])) ∧
    (∀ (w : World) (f : FrameInput) (e : EntityId) (d : Draggable) (a : AwaitingDrag),
      awaitQuery w = [(e, d, a)] →
      ((get_inputs f.raw).containsF d.required &&
        !(get_inputs f.raw).intersects d.disallowed) = true →
      ¬(f.time > a.ends) →
      awaitdrag w f = (w, [])) ∧
    (∀ (w : World) (f : FrameInput) (e : EntityId) (d : Draggable) (a : AwaitingDrag),
      awaitQuery w = [(e, d, a)] →
      ((get_inputs f.raw).containsF d.required &&
        !(get_inputs f.raw).intersects d.disallowed) = true →
      f.time > a.ends →
      awaitdrag w f = (updEnt w e (fun o =>
          { o with dragging := some ⟨none, false⟩, awaiting := none }),
        [Event.Dragged e (get_inputs f.raw)])) ∧
    (∀ (w : World) (f : FrameInput) (e : EntityId) (d : Draggable) (a : AwaitingDrag),
      awaitQuery w = [(e, d, a)] →
      ((get_inputs f.raw).containsF d.required &&
        !(get_inputs f.raw).intersects d.disallowed) = false →
      awaitdrag w f = (updEnt w e (fun o => { o with awaiting := none }), [])) := by
  refine ⟨?_, awaitdrag_single_wait, awaitdrag_single_promote, awaitdrag_single_cancel⟩
  intro w f lp wp c rest dur hg hc hp hcol hmh
  rw [startdrag_eq_cands w f lp wp c rest hg hc hp hcol, hmh]

/-- World with one idle draggable entity that declares a hold timer. -/
def wC3a : World :=
  [{ blankEnt 0 with
      gtransform := some ⟨⟨0, 0, 0⟩, ⟨10, 10, 1⟩⟩, transform := some ⟨0, 0, 0⟩,
      draggable := some dC3 }]

/-- Left-click frame over the entity at elapsed time 5. -/
def fC3a : FrameInput :=
  { raw := rawLeft, cursor := some ⟨0, 0⟩, proj := some ⟨0, 0⟩, assets := [], time := 5 }

/-- Promotion frame: elapsed time 3 is strictly past the deadline 2. -/
def fC3p : FrameInput :=
  { raw := rawLeft, cursor := none, proj := none, assets := [], time := 3 }

/-- Cancellation frame: the left button was released. -/
def fC3n : FrameInput :=
  { raw := rawNone, cursor := none, proj := none, assets := [], time := 3 }

theorem collectCands_wC3a :
    collectCands fC3a.assets (get_inputs fC3a.raw) ⟨0, 0⟩ ⟨0, 0⟩ (draggableQuery wC3a)
      = some [⟨0, 0, dC3⟩] := by
  simp [collectCands, draggableQuery, wC3a, blankEnt, is_in_bounds,
    Rect.from_center_size, Rect.containsP, Vec3.truncate, dC3, fC3a, rawLeft,
    get_inputs, b2n, InputFlags.mul, InputFlags.from_bits_truncate,
    InputFlags.containsF, InputFlags.intersects, InputFlags.LeftClick,
    InputFlags.RightClick, InputFlags.MiddleClick, InputFlags.Shift,
    InputFlags.Ctrl, InputFlags.Alt, InputFlags.ALL]
  norm_num

theorem hold_timer_amended_C3_witness :
    startdrag wC3a fC3a = some (updEnt wC3a 0
        (fun o => { o with awaiting := some ⟨fC3a.time + 1⟩ }),
      [Event.DragAwait 0 (get_inputs fC3a.raw)]) ∧
    awaitdrag wC3 fC3 = (wC3, []) ∧
    awaitdrag wC3 fC3p = (updEnt wC3 0 (fun o =>
        { o with dragging := some ⟨none, false⟩, awaiting := none }),
      [Event.Dragged 0 (get_inputs fC3p.raw)]) ∧
    awaitdrag wC3 fC3n = (updEnt wC3 0 (fun o => { o with awaiting := none }), []) :=
  ⟨hold_timer_amended_C3.1 wC3a fC3a ⟨0, 0⟩ ⟨0, 0⟩ ⟨0, 0, dC3⟩ [] 1
      (by decide) rfl rfl collectCands_wC3a rfl,
   hold_timer_amended_C3.2.1 wC3 fC3 0 dC3 ⟨2⟩ rfl (by decide) (by norm_num [fC3]),
   hold_timer_amended_C3.2.2.1 wC3 fC3p 0 dC3 ⟨2⟩ rfl (by decide) (by norm_num [fC3p]),
   hold_timer_amended_C3.2.2.2 wC3 fC3n 0 dC3 ⟨2⟩ rfl (by decide)⟩

/-! ## findHit characterization and the drop equations -/

theorem findHit_some_spec (assets : List (Nat × Image)) (lp wp : Vec2) :
    ∀ (rs : List (GlobalTransform × Option Sprite × EntityId × Option ComputedNode))
      (r : EntityId), findHit assets lp wp rs = some (some r) →
      ∃ pre o post, rs = pre ++ o :: post ∧ o.2.2.1 = r ∧
        is_in_bounds o.1 o.2.1 o.2.2.2 assets lp wp = some true ∧
        ∀ o' ∈ pre, is_in_bounds o'.1 o'.2.1 o'.2.2.2 assets lp wp = some false
  | [], r, h => by simp [findHit] at h
  | o :: rest, r, h => by
      obtain ⟨gt, sp, e, cn⟩ := o
      unfold findHit at h
      cases hb : is_in_bounds gt sp cn assets lp wp with
      | none => rw [hb] at h; cases h
      | some b =>
          simp only [hb] at h
          cases b with
          | true =>
              dsimp only at h
              simp only [Option.some.injEq] at h
              exact ⟨[], (gt, sp, e, cn), rest, rfl, h, hb, by simp⟩
          | false =>
              dsimp only at h
              obtain ⟨pre, o', post, hrs, hid, hhit, hpre⟩ :=
                findHit_some_spec assets lp wp rest r h
              refine ⟨(gt, sp, e, cn) :: pre, o', post, by rw [hrs]; rfl, hid, hhit, ?_⟩
              intro x hx
              rcases List.mem_cons.mp hx with hh | hh
              · subst hh; exact hb
              · exact hpre x hh

theorem findHit_none_spec (assets : List (Nat × Image)) (lp wp : Vec2) :
    ∀ (rs : List (GlobalTransform × Option Sprite × EntityId × Option ComputedNode)),
      findHit assets lp wp rs = some none →
      ∀ o ∈ rs, is_in_bounds o.1 o.2.1 o.2.2.2 assets lp wp = some false
  | [], _, o, ho => by cases ho
  | o0 :: rest, h, o, ho => by
      obtain ⟨gt, sp, e, cn⟩ := o0
      unfold findHit at h
      cases hb : is_in_bounds gt sp cn assets lp wp with
      | none => rw [hb] at h; cases h
      | some b =>
          simp only [hb] at h
          cases b with
          | true => dsimp only at h; cases h
          | false =>
              dsimp only at h
              rcases List.mem_cons.mp ho with hh | hh
              · subst hh; exact hb
              · exact findHit_none_spec assets lp wp rest h o hh

theorem dropSys_single (w : World) (f : FrameInput) (e : EntityId) (d : Draggable)
    (g : Dragging) (lp wp : Vec2) (rcv : Option EntityId)
    (hq : dropQuery w = [(e, d, g)])
    (hc : f.cursor = some lp) (hp : f.proj = some wp)
    (hf : findHit f.assets lp wp (receiverQuery w) = some rcv) :
    dropSys w f =
      if (get_inputs f.raw).intersects (d.required &&& InputFlags.Clicks) then
        some (w, [])
      else
        some (updEnt w e (fun o => { o with dragging := none }),
          [Event.HoveredChange e none g.hovering (get_inputs f.raw),
           Event.Dropped e rcv (get_inputs f.raw)]) := by
  unfold dropSys
  dsimp only
  rw [hq]
  rw [if_neg (by simp : ¬([((e : EntityId), d, g)].isEmpty = true))]
  simp only [hc, hp, hf]
  unfold dropGo
  by_cases hcond : (get_inputs f.raw).intersects (d.required &&& InputFlags.Clicks) = true
  · rw [if_neg (by rw [hcond]; simp), if_pos hcond]
    unfold dropGo
    rfl
  · rw [Bool.not_eq_true] at hcond
    rw [if_pos (by rw [hcond]; rfl), if_neg (by rw [hcond]; simp)]
    unfold dropGo
    simp

/-- Draggable requiring both left click and shift, used to separate the
claimed trigger ("required bits no longer all present") from the coded
one ("no required *click* bit still pressed"). -/
def dC2 : Draggable := ⟨InputFlags.LeftClick ||| InputFlags.Shift, 0, none⟩

def wC2 : World :=
  [{ blankEnt 0 with
      gtransform := some ⟨⟨0, 0, 0⟩, ⟨1, 1, 1⟩⟩, transform := some ⟨0, 0, 0⟩,
      draggable := some dC2, dragging := some ⟨none, false⟩ }]

def fC2 : FrameInput :=
  { raw := rawLeft, cursor := some ⟨0, 0⟩, proj := some ⟨0, 0⟩, assets := [], time := 0 }

/-- C2 counterexample: with `required = LeftClick|Shift` and only the
left button held, the required bits are *not* all present (Shift is
up), so the claim demands the drag be terminated — but `drop` tests
`!inputs.intersects(required & Clicks)`, the left bit is still
pressed, and nothing happens: no event, `Dragging` retained. -/
theorem drop_trigger_C2_counterexample :
    (get_inputs fC2.raw).containsF dC2.required = false ∧
    dropQuery wC2 = [(0, dC2, ⟨none, false⟩)] ∧
    dropSys wC2 fC2 = some (wC2, []) :=
  ⟨by decide, rfl, rfl⟩

/-- C2 amended: drop-resolve terminates the drag exactly when **none of
the required click bits** (`required & Clicks`) is still present in the
snapshot (not when the full required set stops being contained); when
it fires it emits `HoveredChange{receiver = None, prevreceiver =
Dragging.hovering}` then `Dropped` with `received` = the first receiver
in iteration order containing the pointer (or none), and removes
`Dragging`; otherwise world and events are untouched. -/
theorem drop_trigger_amended_C2 :
    (∀ (w : World) (f : FrameInput) (e : EntityId) (d : Draggable) (g : Dragging)
        (lp wp : Vec2) (rcv : Option EntityId),
      dropQuery w = [(e, d, g)] →
      f.cursor = some lp → f.proj = some wp →
      findHit f.assets lp wp (receiverQuery w) = some rcv →
      ((get_inputs f.raw).intersects (d.required &&& InputFlags.Clicks) = true →
        dropSys w f = some (w, [])) ∧
      ((get_inputs f.raw).intersects (d.required &&& InputFlags.Clicks) = false →
        dropSys w f = some (updEnt w e (fun o => { o with dragging := none }),
          [Event.HoveredChange e none g.hovering (get_inputs f.raw),
           Event.Dropped e rcv (get_inputs f.raw)]))) ∧
    (∀ (assets : List (Nat × Image)) (lp wp : Vec2)
        (rs : List (GlobalTransform × Option Sprite × EntityId × Option ComputedNode))
        (r : EntityId), findHit assets lp wp rs = some (some r) →
      ∃ pre o post, rs = pre ++ o :: post ∧ o.2.2.1 = r ∧
        is_in_bounds o.1 o.2.1 o.2.2.2 assets lp wp = some true ∧
        ∀ o' ∈ pre, is_in_bounds o'.1 o'.2.1 o'.2.2.2 assets lp wp = some false) ∧
    (∀ (assets : List (Nat × Image)) (lp wp : Vec2)
        (rs : List (GlobalTransform × Option Sprite × EntityId × Option ComputedNode)),
      findHit assets lp wp rs = some none →
      ∀ o ∈ rs, is_in_bounds o.1 o.2.1 o.2.2.2 assets lp wp = some false) := by
  refine ⟨?_, findHit_some_spec, findHit_none_spec⟩
  intro w f e d g lp wp rcv hq hc hp hf
  constructor
  · intro hcond
    rw [dropSys_single w f e d g lp wp rcv hq hc hp hf, if_pos hcond]
  · intro hcond
    rw [dropSys_single w f e d g lp wp rcv hq hc hp hf,
      if_neg (by rw [hcond]; exact Bool.false_ne_true)]

/-- Left-click-only draggable for the drop witness. -/
def dC2w : Draggable := ⟨InputFlags.LeftClick, 0, none⟩

/-- A dragging entity hovering receiver 1, and receiver 1 under the
pointer. -/
def wC2w : World :=
  [{ blankEnt 0 with
      gtransform := some ⟨⟨0, 0, 0⟩, ⟨1, 1, 1⟩⟩, transform := some ⟨0, 0, 0⟩,
      draggable := some dC2w, dragging := some ⟨some 1, false⟩ },
   { blankEnt 1 with
      gtransform := some ⟨⟨0, 0, 0⟩, ⟨4, 4, 1⟩⟩, receiver := true }]

/-- Released frame over the receiver. -/
def fC2r : FrameInput :=
  { raw := rawNone, cursor := some ⟨0, 0⟩, proj := some ⟨0, 0⟩, assets := [], time := 0 }

/-- Same frame but with the left button still held. -/
def fC2h : FrameInput :=
  { raw := rawLeft, cursor := some ⟨0, 0⟩, proj := some ⟨0, 0⟩, assets := [], time := 0 }

theorem findHit_wC2w :
    findHit ([] : List (Nat × Image)) ⟨0, 0⟩ ⟨0, 0⟩ (receiverQuery wC2w)
      = some (some 1) := by
  simp [findHit, receiverQuery, wC2w, blankEnt, is_in_bounds, Rect.from_center_size,
    Rect.containsP, Vec3.truncate]
  norm_num

theorem drop_trigger_amended_C2_witness :
    dropSys wC2w fC2h = some (wC2w, []) ∧
    dropSys wC2w fC2r = some (updEnt wC2w 0 (fun o => { o with dragging := none }),
      [Event.HoveredChange 0 none (some 1) (get_inputs fC2r.raw),
       Event.Dropped 0 (some 1) (get_inputs fC2r.raw)]) :=
  ⟨(drop_trigger_amended_C2.1 wC2w fC2h 0 dC2w ⟨some 1, false⟩ ⟨0, 0⟩ ⟨0, 0⟩ (some 1)
      rfl rfl rfl findHit_wC2w).1 (by decide),
   (drop_trigger_amended_C2.1 wC2w fC2r 0 dC2w ⟨some 1, false⟩ ⟨0, 0⟩ ⟨0, 0⟩ (some 1)
      rfl rfl rfl findHit_wC2w).2 (by decide)⟩

/-! ## Winner selection -/

theorem pickMax_ge (best : Cand) : ∀ (l : List Cand), best.z ≤ (pickMax best l).z
  | [] => le_refl _
  | c :: rest => by
      unfold pickMax
      by_cases h : c.z > best.z
      · rw [if_pos h]
        exact le_of_lt (lt_of_lt_of_le h (pickMax_ge c rest))
      · rw [if_neg h]
        exact pickMax_ge best rest

theorem pickMax_spec (c : Cand) : ∀ (rest : List Cand),
    ∃ pre post, c :: rest = pre ++ (pickMax c rest) :: post ∧
      (∀ x ∈ pre, x.z < (pickMax c rest).z) ∧
      ∀ x ∈ post, x.z ≤ (pickMax c rest).z
  | [] => ⟨[], [], rfl, by simp, by simp⟩
  | c2 :: rest' => by
      unfold pickMax
      by_cases h : c2.z > c.z
      · rw [if_pos h]
        obtain ⟨pre, post, heq, hpre, hpost⟩ := pickMax_spec c2 rest'
        refine ⟨c :: pre, post, ?_, ?_, hpost⟩
        · rw [List.cons_append, ← heq]
        · intro x hx
          rcases List.mem_cons.mp hx with hh | hh
          · subst hh
            exact lt_of_lt_of_le h (pickMax_ge c2 rest')
          · exact hpre x hh
      · rw [if_neg h]
        obtain ⟨pre, post, heq, hpre, hpost⟩ := pickMax_spec c rest'
        cases pre with
        | nil =>
            rw [List.nil_append] at heq
            injection heq with h1 h2
            refine ⟨[], c2 :: post, ?_, by simp, ?_⟩
            · rw [List.nil_append, ← h1, h2]
            · intro x hx
              rcases List.mem_cons.mp hx with hh | hh
              · subst hh
                rw [← h1]
                exact le_of_not_lt h
              · exact hpost x hh
        | cons p0 ptail =>
            rw [List.cons_append] at heq
            injection heq with h1 h2
            refine ⟨p0 :: c2 :: ptail, post, ?_, ?_, hpost⟩
            · rw [List.cons_append, List.cons_append, ← h2, ← h1]
            · intro x hx
              have hp0 : p0.z < (pickMax c rest').z := hpre p0 (by simp)
              rcases List.mem_cons.mp hx with hh | hh
              · subst hh; exact hp0
              · rcases List.mem_cons.mp hh with hh2 | hh2
                · subst hh2
                  calc x.z ≤ c.z := le_of_not_lt h
                    _ = p0.z := by rw [h1]
                    _ < _ := hp0
                · exact hpre x (by simp [hh2])

theorem collectCands_spec (assets : List (Nat × Image)) (inputs : InputFlags)
    (lp wp : Vec2) :
    ∀ (q : List (GlobalTransform × Option Sprite × EntityId ×
        Option ComputedNode × Draggable)) (cs : List Cand),
      collectCands assets inputs lp wp q = some cs →
      (∀ cand ∈ cs, ∃ x ∈ q, x.2.2.1 = cand.ent ∧ x.1.translation.z = cand.z ∧
        x.2.2.2.2 = cand.drg ∧
        is_in_bounds x.1 x.2.1 x.2.2.2.1 assets lp wp = some true ∧
        inputs.containsF cand.drg.required = true ∧
        inputs.intersects cand.drg.disallowed = false) ∧
      (∀ x ∈ q, is_in_bounds x.1 x.2.1 x.2.2.2.1 assets lp wp = some true →
        inputs.containsF x.2.2.2.2.required = true →
        inputs.intersects x.2.2.2.2.disallowed = false →
        (⟨x.2.2.1, x.1.translation.z, x.2.2.2.2⟩ : Cand) ∈ cs)
  | [], cs, h => by
      simp only [collectCands, Option.some.injEq] at h
      subst h
      exact ⟨by simp, by simp⟩
  | (gt, sp, e, cn, d) :: qrest, cs, h => by
      unfold collectCands at h
      cases hb : is_in_bounds gt sp cn assets lp wp with
      | none => rw [hb] at h; cases h
      | some hit =>
          simp only [hb] at h
          cases htail : collectCands assets inputs lp wp qrest with
          | none => rw [htail] at h; cases h
          | some tail =>
              simp only [htail] at h
              obtain ⟨ih1, ih2⟩ := collectCands_spec assets inputs lp wp qrest tail htail
              by_cases hcond : (hit && inputs.containsF d.required &&
                  !(inputs.intersects d.disallowed)) = true
              · rw [if_pos hcond] at h
                simp only [Option.some.injEq] at h
                subst h
                rw [Bool.and_eq_true, Bool.and_eq_true] at hcond
                have hhit : hit = true := hcond.1.1
                have hcf : inputs.containsF d.required = true := hcond.1.2
                have hdis : inputs.intersects d.disallowed = false := by
                  have := hcond.2
                  simpa using this
                constructor
                · intro cand hcand
                  rcases List.mem_cons.mp hcand with hh | hh
                  · subst hh
                    exact ⟨(gt, sp, e, cn, d), by simp, rfl, rfl, rfl,
                      hhit ▸ hb, hcf, hdis⟩
                  · obtain ⟨x, hxq, hrest⟩ := ih1 cand hh
                    exact ⟨x, by simp [hxq], hrest⟩
                · intro x hx hxb hxc hxd
                  rcases List.mem_cons.mp hx with hh | hh
                  · subst hh
                    exact List.mem_cons_self _ _
                  · exact List.mem_cons_of_mem _ (ih2 x hh hxb hxc hxd)
              · rw [if_neg hcond] at h
                simp only [Option.some.injEq] at h
                subst h
                constructor
                · intro cand hcand
                  obtain ⟨x, hxq, hrest⟩ := ih1 cand hcand
                  exact ⟨x, by simp [hxq], hrest⟩
                · intro x hx hxb hxc hxd
                  rcases List.mem_cons.mp hx with hh | hh
                  · exfalso
                    apply hcond
                    subst hh
                    simp only at hxb hxc hxd
                    rw [hb] at hxb
                    simp only [Option.some.injEq] at hxb
                    rw [hxb, hxc, hxd]
                    rfl
                  · exact ih2 x hh hxb hxc hxd

/-- C5: start-drag candidate selection.  Under the guard (a click bit
pressed, no `Dragging` or `AwaitingDrag` anywhere, cursor present and
projectable): with no qualifying candidate nothing happens; otherwise
the winner is the first-seen candidate of maximal z among the
candidates (exactly the hit, required-satisfying, not-disallowed
`Draggable` entities in iteration order), and it receives
`AwaitingDrag{ends = now + d}` with a `DragAwait` event when
`minimum_held = some d`, else `Dragging{hovering = none, reparented =
false}` with a `Dragged` event. -/
theorem startdrag_select_C5 :
    (∀ (w : World) (f : FrameInput) (lp wp : Vec2),
      ((get_inputs f.raw).intersects InputFlags.Clicks && draggingEmpty w &&
        awaitingEmpty w) = true →
      f.cursor = some lp → f.proj = some wp →
      collectCands f.assets (get_inputs f.raw) lp wp (draggableQuery w) = some [] →
      startdrag w f = some (w, [])) ∧
    (∀ (w : World) (f : FrameInput) (lp wp : Vec2) (c : Cand) (rest : List Cand),
      ((get_inputs f.raw).intersects InputFlags.Clicks && draggingEmpty w &&
        awaitingEmpty w) = true →
      f.cursor = some lp → f.proj = some wp →
      collectCands f.assets (get_inputs f.raw) lp wp (draggableQuery w)
        = some (c :: rest) →
      (∃ pre post, c :: rest = pre ++ (pickMax c rest) :: post ∧
        (∀ x ∈ pre, x.z < (pickMax c rest).z) ∧
        ∀ x ∈ post, x.z ≤ (pickMax c rest).z) ∧
      (∀ dur : ℚ, (pickMax c rest).drg.minimum_held = some dur →
        startdrag w f = some (updEnt w (pickMax c rest).ent
            (fun o => { o with awaiting := some ⟨f.time + dur⟩ }),
          [Event.DragAwait (pickMax c rest).ent (get_inputs f.raw)])) ∧
      ((pickMax c rest).drg.minimum_held = none →
        startdrag w f = some (updEnt w (pickMax c rest).ent
            (fun o => { o with dragging := some ⟨none, false⟩ }),
          [Event.Dragged (pickMax c rest).ent (get_inputs f.raw)]))) ∧
    (∀ (w : World) (f : FrameInput) (lp wp : Vec2) (cs : List Cand),
      collectCands f.assets (get_inputs f.raw) lp wp (draggableQuery w) = some cs →
      (∀ cand ∈ cs, ∃ x ∈ draggableQuery w, x.2.2.1 = cand.ent ∧
        x.1.translation.z = cand.z ∧ x.2.2.2.2 = cand.drg ∧
        is_in_bounds x.1 x.2.1 x.2.2.2.1 f.assets lp wp = some true ∧
        (get_inputs f.raw).containsF cand.drg.required = true ∧
        (get_inputs f.raw).intersects cand.drg.disallowed = false) ∧
      (∀ x ∈ draggableQuery w,
        is_in_bounds x.1 x.2.1 x.2.2.2.1 f.assets lp wp = some true →
        (get_inputs f.raw).containsF x.2.2.2.2.required = true →
        (get_inputs f.raw).intersects x.2.2.2.2.disallowed = false →
        (⟨x.2.2.1, x.1.translation.z, x.2.2.2.2⟩ : Cand) ∈ cs)) := by
  refine ⟨startdrag_eq_nocands, ?_, ?_⟩
  · intro w f lp wp c rest hg hc hp hcol
    refine ⟨pickMax_spec c rest, ?_, ?_⟩
    · intro dur hmh
      rw [startdrag_eq_cands w f lp wp c rest hg hc hp hcol, hmh]
    · intro hmh
      rw [startdrag_eq_cands w f lp wp c rest hg hc hp hcol, hmh]
  · intro w f lp wp cs hcol
    exact collectCands_spec f.assets (get_inputs f.raw) lp wp (draggableQuery w) cs hcol

/-- Click-to-drag draggable with no hold timer. -/
def dC5 : Draggable :=
  ⟨InputFlags.LeftClick, InputFlags.RightClick ||| InputFlags.MiddleClick, none⟩

/-- Two overlapping draggables; entity 1 sits at the higher z = 5. -/
def wC5 : World :=
  [{ blankEnt 0 with
      gtransform := some ⟨⟨0, 0, 0⟩, ⟨10, 10, 1⟩⟩, transform := some ⟨0, 0, 0⟩,
      draggable := some dC5 },
   { blankEnt 1 with
      gtransform := some ⟨⟨0, 0, 5⟩, ⟨10, 10, 1⟩⟩, transform := some ⟨0, 0, 5⟩,
      draggable := some dC5 }]

def fC5 : FrameInput :=
  { raw := rawLeft, cursor := some ⟨0, 0⟩, proj := some ⟨0, 0⟩, assets := [], time := 0 }

/-- Same frame but with the pointer far away from both entities. -/
def fC5m : FrameInput :=
  { raw := rawLeft, cursor := some ⟨99, 99⟩, proj := some ⟨99, 99⟩, assets := [], time := 0 }

theorem collectCands_wC5 :
    collectCands fC5.assets (get_inputs fC5.raw) ⟨0, 0⟩ ⟨0, 0⟩ (draggableQuery wC5)
      = some [⟨0, 0, dC5⟩, ⟨1, 5, dC5⟩] := by
  simp [collectCands, draggableQuery, wC5, blankEnt, is_in_bounds,
    Rect.from_center_size, Rect.containsP, Vec3.truncate, dC5, fC5, rawLeft,
    get_inputs, b2n, InputFlags.mul, InputFlags.from_bits_truncate,
    InputFlags.containsF, InputFlags.intersects, InputFlags.LeftClick,
    InputFlags.RightClick, InputFlags.MiddleClick, InputFlags.Shift,
    InputFlags.Ctrl, InputFlags.Alt, InputFlags.ALL]
  norm_num

theorem collectCands_wC5m :
    collectCands fC5m.assets (get_inputs fC5m.raw) ⟨99, 99⟩ ⟨99, 99⟩
      (draggableQuery wC5) = some [] := by
  simp [collectCands, draggableQuery, wC5, blankEnt, is_in_bounds,
    Rect.from_center_size, Rect.containsP, Vec3.truncate, dC5, fC5m, rawLeft,
    get_inputs, b2n, InputFlags.mul, InputFlags.from_bits_truncate,
    InputFlags.containsF, InputFlags.intersects, InputFlags.LeftClick,
    InputFlags.RightClick, InputFlags.MiddleClick, InputFlags.Shift,
    InputFlags.Ctrl, InputFlags.Alt, InputFlags.ALL]
  norm_num

theorem startdrag_select_C5_witness :
    startdrag wC5 fC5m = some (wC5, []) ∧
    startdrag wC5 fC5 = some (updEnt wC5 1
        (fun o => { o with dragging := some ⟨none, false⟩ }),
      [Event.Dragged 1 (get_inputs fC5.raw)]) :=
  ⟨startdrag_select_C5.1 wC5 fC5m ⟨99, 99⟩ ⟨99, 99⟩ (by decide) rfl rfl
      collectCands_wC5m,
   (startdrag_select_C5.2.1 wC5 fC5 ⟨0, 0⟩ ⟨0, 0⟩ ⟨0, 0, dC5⟩ [⟨1, 5, dC5⟩]
      (by decide) rfl rfl collectCands_wC5).2.2 (by norm_num [pickMax, dC5])⟩

theorem dragIter_visibility (w : World) (f : FrameInput) (inputs : InputFlags)
    (it : DragItem) (lp wp : Vec2) (w1 : World) (evs1 : List Event) (early : Bool)
    (hc : f.cursor = some lp) (hp : f.proj = some wp)
    (h : dragIter w f inputs it = some (w1, evs1, early)) :
    visibilityOf w1 it.ent =
      (visibilityOf w it.ent).map fun _ => Visibility.Visible := by
  unfold dragIter at h
  simp only [hc, hp] at h
  cases hf : findHit f.assets lp wp (receiverQuery (positionStep w lp wp it)) with
  | none => rw [hf] at h; cases h
  | some r0 =>
      simp only [hf] at h
      cases r0 with
      | some r =>
          dsimp only at h
          by_cases hh : it.drg.hovering = some r
          · rw [if_pos hh] at h
            simp only [Option.some.injEq, Prod.mk.injEq] at h
            rw [← h.1]
            exact visibilityOf_positionStep_self w lp wp it
          · rw [if_neg hh] at h
            simp only [Option.some.injEq, Prod.mk.injEq] at h
            rw [← h.1]
            rw [visibilityOf_updEnt_keep (positionStep w lp wp it) it.ent it.ent
              (fun o => { o with dragging := o.dragging.map fun d =>
                { d with hovering := some r } }) (fun o => rfl) (fun o => rfl)]
            exact visibilityOf_positionStep_self w lp wp it
      | none =>
          dsimp only at h
          by_cases hh : it.drg.hovering.isSome = true
          · rw [if_pos hh] at h
            simp only [Option.some.injEq, Prod.mk.injEq] at h
            rw [← h.1]
            rw [visibilityOf_updEnt_keep (positionStep w lp wp it) it.ent it.ent
              (fun o => { o with dragging := o.dragging.map fun d =>
                { d with hovering := none } }) (fun o => rfl) (fun o => rfl)]
            exact visibilityOf_positionStep_self w lp wp it
          · rw [if_neg hh] at h
            simp only [Option.some.injEq, Prod.mk.injEq] at h
            rw [← h.1]
            exact visibilityOf_positionStep_self w lp wp it

/-- C9: on a frame with a cursor position, `dragging` sets the dragged
entity's `Visibility` to `Visible` whatever positioning branch runs
(detached layout node, still-parented node or pure world object, hover
hit or miss) — any visibility the application had set is overwritten. -/
theorem visibility_overwrite_C9 (w : World) (f : FrameInput) (it : DragItem)
    (lp wp : Vec2) (w' : World) (evs : List Event) (v : Visibility)
    (hitems : dragItems w = [it])
    (hc : f.cursor = some lp) (hp : f.proj = some wp)
    (h : draggingSys w f = some (w', evs))
    (hv : visibilityOf w it.ent = some v) :
    visibilityOf w' it.ent = some Visibility.Visible := by
  rw [draggingSys_single w f it hitems] at h
  cases hdi : dragIter w f (get_inputs f.raw) it with
  | none => rw [hdi] at h; cases h
  | some x =>
      obtain ⟨w1, evs1, early⟩ := x
      rw [hdi] at h
      simp only [Option.map_some', Option.some.injEq, Prod.mk.injEq] at h
      rw [← h.1]
      rw [dragIter_visibility w f (get_inputs f.raw) it lp wp w1 evs1 early hc hp hdi,
        hv]
      rfl

/-- A hidden dragging world object. -/
def wC9 : World :=
  [{ blankEnt 0 with
      gtransform := some ⟨⟨0, 0, 0⟩, ⟨1, 1, 1⟩⟩, transform := some ⟨0, 0, 0⟩,
      draggable := some dC5, dragging := some ⟨none, false⟩,
      visibility := some Visibility.Hidden }]

def fC9 : FrameInput :=
  { raw := rawLeft, cursor := some ⟨2, 3⟩, proj := some ⟨2, 3⟩, assets := [], time := 0 }

/-- The world after one `dragging` frame over `wC9`: moved to the
pointer and forced visible. -/
def wC9' : World :=
  [{ blankEnt 0 with
      gtransform := some ⟨⟨0, 0, 0⟩, ⟨1, 1, 1⟩⟩, transform := some ⟨2, 3, 0⟩,
      draggable := some dC5, dragging := some ⟨none, false⟩,
      visibility := some Visibility.Visible }]

theorem visibility_overwrite_C9_witness :
    visibilityOf wC9' 0 = some Visibility.Visible :=
  visibility_overwrite_C9 wC9 fC9
    ⟨0, none, ⟨0, 0, 0⟩, ⟨none, false⟩, none, none⟩ ⟨2, 3⟩ ⟨2, 3⟩ wC9' []
    Visibility.Hidden rfl rfl rfl (by decide) rfl

theorem hoveringOf_of_item (w : World) (it : DragItem)
    (hn : (w.map EntObj.id).Nodup) (hitems : dragItems w = [it]) :
    hoveringOf w it.ent = some it.drg.hovering := by
  obtain ⟨o, how, hid, _, hdrag, _, _, _⟩ :=
    dragItems_mem w it (by rw [hitems]; exact List.mem_singleton.mpr rfl)
  unfold hoveringOf
  rw [← hid, lookup_of_mem w o hn how]
  dsimp only
  rw [hdrag]
  rfl

/-- C6: hover transition correctness of `dragging` for the single
dragged entity.  The new hover target is the first receiver in
iteration order whose bounds contain the pointer; a single
`HoveredChange{new, old}` is emitted exactly when that target differs
from `Dragging.hovering` (none at all for the same receiver), a single
clearing `HoveredChange{None, old}` when no receiver matches and a
hover existed, and `hovering` (an `Option`, hence naming at most one
receiver at any time) is updated accordingly. -/
theorem hover_transition_C6 (w : World) (f : FrameInput) (it : DragItem)
    (lp wp : Vec2) (tgt : Option EntityId)
    (hn : (w.map EntObj.id).Nodup)
    (hitems : dragItems w = [it])
    (hc : f.cursor = some lp) (hp : f.proj = some wp)
    (hf : findHit f.assets lp wp (receiverQuery w) = some tgt) :
    (∀ r, tgt = some r → ∃ pre o post, receiverQuery w = pre ++ o :: post ∧
      o.2.2.1 = r ∧ is_in_bounds o.1 o.2.1 o.2.2.2 f.assets lp wp = some true ∧
      ∀ o' ∈ pre, is_in_bounds o'.1 o'.2.1 o'.2.2.2 f.assets lp wp = some false) ∧
    (tgt = none → ∀ o ∈ receiverQuery w,
      is_in_bounds o.1 o.2.1 o.2.2.2 f.assets lp wp = some false) ∧
    (∀ r, tgt = some r → it.drg.hovering = some r →
      ∃ w', draggingSys w f = some (w', []) ∧
        hoveringOf w' it.ent = some (some r)) ∧
    (∀ r, tgt = some r → ¬(it.drg.hovering = some r) →
      ∃ w', draggingSys w f = some (w',
          [Event.HoveredChange it.ent (some r) it.drg.hovering (get_inputs f.raw)]) ∧
        hoveringOf w' it.ent = some (some r)) ∧
    (∀ h0, tgt = none → it.drg.hovering = some h0 →
      ∃ w', draggingSys w f = some (w',
          [Event.HoveredChange it.ent none (some h0) (get_inputs f.raw)]) ∧
        hoveringOf w' it.ent = some none) ∧
    (tgt = none → it.drg.hovering = none →
      ∃ w', draggingSys w f = some (w', []) ∧
        hoveringOf w' it.ent = some none) := by
  have hsingle := draggingSys_single w f it hitems
  have hspec := dragIter_spec w f (get_inputs f.raw) it lp wp tgt hc hp hf
  have hbase : hoveringOf (positionStep w lp wp it) it.ent = some it.drg.hovering := by
    rw [hoveringOf_positionStep]
    exact hoveringOf_of_item w it hn hitems
  refine ⟨?_, ?_, ?_, ?_, ?_, ?_⟩
  · intro r htgt
    subst htgt
    exact findHit_some_spec f.assets lp wp (receiverQuery w) r hf
  · intro htgt
    subst htgt
    exact findHit_none_spec f.assets lp wp (receiverQuery w) hf
  · intro r htgt hh
    subst htgt
    dsimp only at hspec
    rw [if_pos hh] at hspec
    refine ⟨positionStep w lp wp it, ?_, ?_⟩
    · rw [hsingle, hspec]
      rfl
    · rw [hbase, hh]
  · intro r htgt hh
    subst htgt
    dsimp only at hspec
    rw [if_neg hh] at hspec
    refine ⟨updEnt (positionStep w lp wp it) it.ent (fun o =>
      { o with dragging := o.dragging.map fun d => { d with hovering := some r } }),
      ?_, ?_⟩
    · rw [hsingle, hspec]
      rfl
    · exact hoveringOf_set (positionStep w lp wp it) it.ent (some r)
        it.drg.hovering hbase
  · intro h0 htgt hh
    subst htgt
    dsimp only at hspec
    rw [if_pos (by rw [hh]; rfl : it.drg.hovering.isSome = true)] at hspec
    rw [hh] at hspec
    refine ⟨updEnt (positionStep w lp wp it) it.ent (fun o =>
      { o with dragging := o.dragging.map fun d => { d with hovering := none } }),
      ?_, ?_⟩
    · rw [hsingle, hspec]
      rfl
    · exact hoveringOf_set (positionStep w lp wp it) it.ent none
        it.drg.hovering hbase
  · intro htgt hh
    subst htgt
    dsimp only at hspec
    rw [if_neg (by rw [hh]; simp)] at hspec
    refine ⟨positionStep w lp wp it, ?_, ?_⟩
    · rw [hsingle, hspec]
      rfl
    · rw [hbase, hh]

/-- Dragged entity 0 (not hovering) and receiver 1 under the pointer. -/
def wC6 : World :=
  [{ blankEnt 0 with
      gtransform := some ⟨⟨0, 0, 0⟩, ⟨1, 1, 1⟩⟩, transform := some ⟨0, 0, 0⟩,
      draggable := some dC5, dragging := some ⟨none, false⟩ },
   { blankEnt 1 with
      gtransform := some ⟨⟨0, 0, 0⟩, ⟨4, 4, 1⟩⟩, receiver := true }]

/-- Same scene, but already hovering receiver 1. -/
def wC6b : World :=
  [{ blankEnt 0 with
      gtransform := some ⟨⟨0, 0, 0⟩, ⟨1, 1, 1⟩⟩, transform := some ⟨0, 0, 0⟩,
      draggable := some dC5, dragging := some ⟨some 1, false⟩ },
   { blankEnt 1 with
      gtransform := some ⟨⟨0, 0, 0⟩, ⟨4, 4, 1⟩⟩, receiver := true }]

def fC6 : FrameInput :=
  { raw := rawLeft, cursor := some ⟨0, 0⟩, proj := some ⟨0, 0⟩, assets := [], time := 0 }

/-- Pointer far outside every receiver. -/
def fC6m : FrameInput :=
  { raw := rawLeft, cursor := some ⟨99, 99⟩, proj := some ⟨99, 99⟩, assets := [],
    time := 0 }

theorem findHit_wC6 :
    findHit ([] : List (Nat × Image)) ⟨0, 0⟩ ⟨0, 0⟩ (receiverQuery wC6)
      = some (some 1) := by
  simp [findHit, receiverQuery, wC6, blankEnt, is_in_bounds, Rect.from_center_size,
    Rect.containsP, Vec3.truncate]
  norm_num

theorem findHit_wC6m :
    findHit ([] : List (Nat × Image)) ⟨99, 99⟩ ⟨99, 99⟩ (receiverQuery wC6b)
      = some none := by
  simp [findHit, receiverQuery, wC6b, blankEnt, is_in_bounds, Rect.from_center_size,
    Rect.containsP, Vec3.truncate]
  norm_num

theorem hover_transition_C6_witness :
    (∃ w', draggingSys wC6 fC6 = some (w',
        [Event.HoveredChange 0 (some 1) none (get_inputs fC6.raw)]) ∧
      hoveringOf w' 0 = some (some 1)) ∧
    (∃ w', draggingSys wC6b fC6m = some (w',
        [Event.HoveredChange 0 none (some 1) (get_inputs fC6m.raw)]) ∧
      hoveringOf w' 0 = some none) :=
  ⟨(hover_transition_C6 wC6 fC6 ⟨0, none, ⟨0, 0, 0⟩, ⟨none, false⟩, none, none⟩
      ⟨0, 0⟩ ⟨0, 0⟩ (some 1) (by decide) rfl rfl rfl findHit_wC6).2.2.2.1 1 rfl
      (by simp),
   (hover_transition_C6 wC6b fC6m ⟨0, none, ⟨0, 0, 0⟩, ⟨some 1, false⟩, none, none⟩
      ⟨99, 99⟩ ⟨99, 99⟩ none (by decide) rfl rfl rfl findHit_wC6m).2.2.2.2.1 1 rfl
      rfl⟩

/-- C1: mutual exclusion of drag state.  From any state with no
`Dragging` or `AwaitingDrag` (and distinct entity ids), every world
reachable by whole non-panicking frames keeps the number of entities
holding `AwaitingDrag` plus the number holding `Dragging` at most 1;
start-drag refuses to create any state unless both query sets are
empty; and await-drag's promotion removes `AwaitingDrag` in the very
update that attaches `Dragging`. -/
theorem mutual_exclusion_C1 :
    (∀ w : World, ReachableW w → countD w + countA w ≤ 1) ∧
    (∀ (w : World) (f : FrameInput),
      ¬(draggingEmpty w = true ∧ awaitingEmpty w = true) →
      startdrag w f = some (w, [])) ∧
    (∀ (w : World) (f : FrameInput) (e : EntityId) (d : Draggable) (a : AwaitingDrag),
      awaitQuery w = [(e, d, a)] →
      ((get_inputs f.raw).containsF d.required &&
        !(get_inputs f.raw).intersects d.disallowed) = true →
      f.time > a.ends →
      awaitdrag w f = (updEnt w e (fun o =>
          { o with dragging := some ⟨none, false⟩, awaiting := none }),
        [Event.Dragged e (get_inputs f.raw)])) := by
  refine ⟨?_, ?_, awaitdrag_single_promote⟩
  · intro w hr
    have hinv : ExclInv w := by
      induction hr with
      | init w h0 hn => exact ⟨by omega, hn⟩
      | step w f w' evs hr hf ih => exact (frame_inv w f w' evs hf ih).2
    exact hinv.1
  · intro w f hne
    unfold startdrag
    dsimp only
    rw [if_neg ?_]
    · intro htrue
      rw [Bool.and_eq_true, Bool.and_eq_true] at htrue
      exact hne ⟨htrue.1.2, htrue.2⟩

theorem mutual_exclusion_C1_witness :
    countD wC5 + countA wC5 ≤ 1 ∧
    startdrag wC3 fC5 = some (wC3, []) ∧
    awaitdrag wC3 fC3p = (updEnt wC3 0 (fun o =>
        { o with dragging := some ⟨none, false⟩, awaiting := none }),
      [Event.Dragged 0 (get_inputs fC3p.raw)]) :=
  ⟨mutual_exclusion_C1.1 wC5 (ReachableW.init wC5 (by decide) (by decide)),
   mutual_exclusion_C1.2.1 wC3 fC5 (by decide),
   mutual_exclusion_C1.2.2 wC3 fC3p 0 dC3 ⟨2⟩ rfl (by decide) (by norm_num [fC3p])⟩
